import Mathlib

/-!
Verification of the clusterrpc C server (src/c/server.c) against its
natural-language specification.  The C code is shallowly embedded: frames are
byte lists, zmsg_t is a list of frames, the two hand-written ring buffers are
records with an explicit cell function, and the broker / worker loop bodies are
step functions.  `none` results model assertion failures or undefined
behaviour (NULL dereference) in the C code.
-/

/-- A zframe_t: a sequence of bytes. -/
abbrev Frame := List Nat

/-- A zmsg_t: a sequence of frames. -/
abbrev Msg := List Frame

/-- Byte content of a C string literal (without the terminating NUL). -/
def strBytes (s : String) : Frame := s.toList.map Char.toNat

/-! ### Ring buffers (server.c lines 40-82)

The server keeps two fixed-capacity circular queues: `free_workers_q` of
worker indices (`int`) and `queued_messages` of pending envelopes
(`zmsg_t*`).  The C state for a queue is a base array, a head, a tail and a
length; we embed the array as a cell function `Nat → _`. -/

/-- State of the int ring buffer (`free_workers_q` plus its head/tail/len). -/
structure IntRing where
  base : Nat → Int
  head : Nat
  tail : Nat
  len : Nat

/-- `enqueue_int` from server.c: refuse when full, wrap tail to 0 at capacity,
write at the tail, advance tail and length. -/
def enqueue_int (element : Int) (cap : Nat) (s : IntRing) : Bool × IntRing :=
  if s.len ≥ cap then (false, s)
  else
    let t := if s.tail = cap then 0 else s.tail
    (true, ⟨fun i => if i = t then element else s.base i, s.head, t + 1, s.len + 1⟩)

/-- `dequeue_int` from server.c: sentinel -1 when empty; if the head is at the
last cell, read it and wrap the head to 0, otherwise advance the head and read
the cell it pointed to. -/
def dequeue_int (cap : Nat) (s : IntRing) : Int × IntRing :=
  if s.len = 0 then (-1, s)
  else if s.head = cap - 1 then (s.base (cap - 1), ⟨s.base, 0, s.tail, s.len - 1⟩)
  else (s.base s.head, ⟨s.base, s.head + 1, s.tail, s.len - 1⟩)

/-- State of the zmsg_t* ring buffer; a cell holds a possibly-NULL pointer,
modelled as `Option Msg` (the zeroed initial array is all `none`). -/
structure MsgRing where
  base : Nat → Option Msg
  head : Nat
  tail : Nat
  len : Nat

/-- `enqueue_zmsg_t` from server.c (same algorithm as `enqueue_int`). -/
def enqueue_zmsg_t (element : Option Msg) (cap : Nat) (s : MsgRing) : Bool × MsgRing :=
  if s.len ≥ cap then (false, s)
  else
    let t := if s.tail = cap then 0 else s.tail
    (true, ⟨fun i => if i = t then element else s.base i, s.head, t + 1, s.len + 1⟩)

/-- `dequeue_zmsg_t` from server.c: sentinel NULL (`none`) when empty. -/
def dequeue_zmsg_t (cap : Nat) (s : MsgRing) : Option Msg × MsgRing :=
  if s.len = 0 then (none, s)
  else if s.head = cap - 1 then (s.base (cap - 1), ⟨s.base, 0, s.tail, s.len - 1⟩)
  else (s.base s.head, ⟨s.base, s.head + 1, s.tail, s.len - 1⟩)

/-! ### Abstraction of the rings to lists -/

/-- Structural well-formedness of an int ring: head strictly inside the
array, tail at most `cap` (the code lazily wraps it on the next write),
length bounded, and tail congruent to head + length modulo the capacity. -/
def RingInvI (cap : Nat) (s : IntRing) : Prop :=
  s.head < cap ∧ s.tail ≤ cap ∧ s.len ≤ cap ∧ s.tail % cap = (s.head + s.len) % cap

/-- The queue contents of an int ring, oldest first. -/
def listOfI (cap : Nat) (s : IntRing) : List Int :=
  (List.range s.len).map fun k => s.base ((s.head + k) % cap)

/-- Structural well-formedness of a message ring. -/
def RingInvM (cap : Nat) (s : MsgRing) : Prop :=
  s.head < cap ∧ s.tail ≤ cap ∧ s.len ≤ cap ∧ s.tail % cap = (s.head + s.len) % cap

/-- The queue contents of a message ring, oldest first. -/
def listOfM (cap : Nat) (s : MsgRing) : List (Option Msg) :=
  (List.range s.len).map fun k => s.base ((s.head + k) % cap)

theorem listOfI_length (cap : Nat) (s : IntRing) : (listOfI cap s).length = s.len := by
  simp [listOfI]

theorem listOfM_length (cap : Nat) (s : MsgRing) : (listOfM cap s).length = s.len := by
  simp [listOfM]

theorem map_congr_mem {α β : Type _} {f g : α → β} :
    ∀ (l : List α), (∀ a ∈ l, f a = g a) → l.map f = l.map g
  | [], _ => rfl
  | a :: l, h => by
    simp only [List.map_cons]
    exact congrArg₂ _ (h a (by simp)) (map_congr_mem l fun b hb => h b (by simp [hb]))

theorem enqueue_int_of_full (element : Int) (cap : Nat) (s : IntRing) (h : cap ≤ s.len) :
    enqueue_int element cap s = (false, s) := by
  simp [enqueue_int, h]

theorem dequeue_int_of_empty (cap : Nat) (s : IntRing) (h : s.len = 0) :
    dequeue_int cap s = (-1, s) := by
  simp [dequeue_int, h]

theorem enqueue_zmsg_of_full (element : Option Msg) (cap : Nat) (s : MsgRing) (h : cap ≤ s.len) :
    enqueue_zmsg_t element cap s = (false, s) := by
  simp [enqueue_zmsg_t, h]

theorem dequeue_zmsg_of_empty (cap : Nat) (s : MsgRing) (h : s.len = 0) :
    dequeue_zmsg_t cap s = (none, s) := by
  simp [dequeue_zmsg_t, h]

theorem enqueue_int_spec (element : Int) (cap : Nat) (s : IntRing) (hc : 0 < cap)
    (hinv : RingInvI cap s) (hlt : s.len < cap) :
    (enqueue_int element cap s).1 = true ∧
    RingInvI cap (enqueue_int element cap s).2 ∧
    listOfI cap (enqueue_int element cap s).2 = listOfI cap s ++ [element] ∧
    (enqueue_int element cap s).2.len = s.len + 1 := by
  obtain ⟨h1, h2, h3, h4⟩ := hinv
  have hnot : ¬ s.len ≥ cap := by omega
  have htmod : (if s.tail = cap then 0 else s.tail) = s.tail % cap := by
    by_cases hcase : s.tail = cap
    · simp [hcase, Nat.mod_self]
    · have : s.tail < cap := lt_of_le_of_ne h2 hcase
      simp [hcase, Nat.mod_eq_of_lt this]
  have hT : (if s.tail = cap then 0 else s.tail) = (s.head + s.len) % cap := by
    rw [htmod, h4]
  have htlt : (if s.tail = cap then 0 else s.tail) < cap := by
    rw [htmod]; exact Nat.mod_lt _ hc
  have heq : enqueue_int element cap s =
      (true, ⟨fun i => if i = (if s.tail = cap then 0 else s.tail) then element else s.base i,
        s.head, (if s.tail = cap then 0 else s.tail) + 1, s.len + 1⟩) := by
    simp only [enqueue_int, if_neg hnot]
  rw [heq]
  refine ⟨rfl, ⟨h1, by show (if s.tail = cap then 0 else s.tail) + 1 ≤ cap; omega,
    by show s.len + 1 ≤ cap; omega, ?_⟩, ?_, rfl⟩
  · show ((if s.tail = cap then 0 else s.tail) + 1) % cap = (s.head + (s.len + 1)) % cap
    rw [htmod, Nat.mod_add_mod]
    have hstep : (s.tail + 1) % cap = (s.head + s.len + 1) % cap :=
      Nat.ModEq.add_right 1 h4
    rw [hstep, Nat.add_assoc]
  · show listOfI cap ⟨_, s.head, _, s.len + 1⟩ = listOfI cap s ++ [element]
    simp only [listOfI, List.range_succ, List.map_append, List.map_cons, List.map_nil]
    congr 1
    · refine map_congr_mem _ fun k hk => ?_
      have hklt : k < s.len := List.mem_range.mp hk
      have hne : (s.head + k) % cap ≠ (if s.tail = cap then 0 else s.tail) := by
        rw [hT]
        intro hcontra
        have hmodeq : k ≡ s.len [MOD cap] :=
          Nat.ModEq.add_left_cancel' s.head hcontra
        have hkm : k % cap = s.len % cap := hmodeq
        rw [Nat.mod_eq_of_lt (lt_trans hklt hlt), Nat.mod_eq_of_lt hlt] at hkm
        omega
      simp [hne]
    · have : (s.head + s.len) % cap = (if s.tail = cap then 0 else s.tail) := hT.symm
      simp [this]

theorem dequeue_int_spec (cap : Nat) (s : IntRing) (hc : 0 < cap)
    (hinv : RingInvI cap s) (hpos : 0 < s.len) :
    RingInvI cap (dequeue_int cap s).2 ∧
    listOfI cap s = (dequeue_int cap s).1 :: listOfI cap (dequeue_int cap s).2 ∧
    (dequeue_int cap s).2.len = s.len - 1 := by
  obtain ⟨h1, h2, h3, h4⟩ := hinv
  obtain ⟨l, hl⟩ : ∃ l, s.len = l + 1 := ⟨s.len - 1, by omega⟩
  have hne : ¬ s.len = 0 := by omega
  by_cases hh : s.head = cap - 1
  · have heq : dequeue_int cap s = (s.base (cap - 1), ⟨s.base, 0, s.tail, s.len - 1⟩) := by
      simp only [dequeue_int, if_neg hne, if_pos hh]
    rw [heq]
    refine ⟨⟨hc, h2, by show s.len - 1 ≤ cap; omega, ?_⟩, ?_, rfl⟩
    · show s.tail % cap = (0 + (s.len - 1)) % cap
      rw [h4, hh, hl]
      have hcl : cap - 1 + (l + 1) = cap + l := by omega
      rw [hcl, Nat.add_mod_left]
      simp
    · show listOfI cap s = s.base (cap - 1) :: listOfI cap ⟨s.base, 0, s.tail, s.len - 1⟩
      simp only [listOfI, hl, Nat.add_sub_cancel, List.range_succ_eq_map, List.map_cons,
        List.map_map]
      have hhead : s.base ((s.head + 0) % cap) = s.base (cap - 1) := by
        rw [Nat.add_zero, Nat.mod_eq_of_lt h1, hh]
      refine congrArg₂ List.cons hhead (map_congr_mem _ fun k _ => ?_)
      show s.base ((s.head + Nat.succ k) % cap) = s.base ((0 + k) % cap)
      have hck : s.head + Nat.succ k = cap + k := by omega
      rw [hck, Nat.add_mod_left, Nat.zero_add]
  · have hlt : s.head + 1 < cap := by omega
    have heq : dequeue_int cap s = (s.base s.head, ⟨s.base, s.head + 1, s.tail, s.len - 1⟩) := by
      simp only [dequeue_int, if_neg hne, if_neg hh]
    rw [heq]
    refine ⟨⟨hlt, h2, by show s.len - 1 ≤ cap; omega, ?_⟩, ?_, rfl⟩
    · show s.tail % cap = (s.head + 1 + (s.len - 1)) % cap
      have hsum : s.head + 1 + (s.len - 1) = s.head + s.len := by omega
      rw [hsum, h4]
    · show listOfI cap s = s.base s.head :: listOfI cap ⟨s.base, s.head + 1, s.tail, s.len - 1⟩
      simp only [listOfI, hl, Nat.add_sub_cancel, List.range_succ_eq_map, List.map_cons,
        List.map_map]
      have hhead : s.base ((s.head + 0) % cap) = s.base s.head := by
        rw [Nat.add_zero, Nat.mod_eq_of_lt h1]
      refine congrArg₂ List.cons hhead (map_congr_mem _ fun k _ => ?_)
      show s.base ((s.head + Nat.succ k) % cap) = s.base ((s.head + 1 + k) % cap)
      have hck : s.head + Nat.succ k = s.head + 1 + k := by omega
      rw [hck]

theorem enqueue_zmsg_spec (element : Option Msg) (cap : Nat) (s : MsgRing) (hc : 0 < cap)
    (hinv : RingInvM cap s) (hlt : s.len < cap) :
    (enqueue_zmsg_t element cap s).1 = true ∧
    RingInvM cap (enqueue_zmsg_t element cap s).2 ∧
    listOfM cap (enqueue_zmsg_t element cap s).2 = listOfM cap s ++ [element] ∧
    (enqueue_zmsg_t element cap s).2.len = s.len + 1 := by
  obtain ⟨h1, h2, h3, h4⟩ := hinv
  have hnot : ¬ s.len ≥ cap := by omega
  have htmod : (if s.tail = cap then 0 else s.tail) = s.tail % cap := by
    by_cases hcase : s.tail = cap
    · simp [hcase, Nat.mod_self]
    · have : s.tail < cap := lt_of_le_of_ne h2 hcase
      simp [hcase, Nat.mod_eq_of_lt this]
  have hT : (if s.tail = cap then 0 else s.tail) = (s.head + s.len) % cap := by
    rw [htmod, h4]
  have htlt : (if s.tail = cap then 0 else s.tail) < cap := by
    rw [htmod]; exact Nat.mod_lt _ hc
  have heq : enqueue_zmsg_t element cap s =
      (true, ⟨fun i => if i = (if s.tail = cap then 0 else s.tail) then element else s.base i,
        s.head, (if s.tail = cap then 0 else s.tail) + 1, s.len + 1⟩) := by
    simp only [enqueue_zmsg_t, if_neg hnot]
  rw [heq]
  refine ⟨rfl, ⟨h1, by show (if s.tail = cap then 0 else s.tail) + 1 ≤ cap; omega,
    by show s.len + 1 ≤ cap; omega, ?_⟩, ?_, rfl⟩
  · show ((if s.tail = cap then 0 else s.tail) + 1) % cap = (s.head + (s.len + 1)) % cap
    rw [htmod, Nat.mod_add_mod]
    have hstep : (s.tail + 1) % cap = (s.head + s.len + 1) % cap :=
      Nat.ModEq.add_right 1 h4
    rw [hstep, Nat.add_assoc]
  · show listOfM cap ⟨_, s.head, _, s.len + 1⟩ = listOfM cap s ++ [element]
    simp only [listOfM, List.range_succ, List.map_append, List.map_cons, List.map_nil]
    congr 1
    · refine map_congr_mem _ fun k hk => ?_
      have hklt : k < s.len := List.mem_range.mp hk
      have hne : (s.head + k) % cap ≠ (if s.tail = cap then 0 else s.tail) := by
        rw [hT]
        intro hcontra
        have hmodeq : k ≡ s.len [MOD cap] :=
          Nat.ModEq.add_left_cancel' s.head hcontra
        have hkm : k % cap = s.len % cap := hmodeq
        rw [Nat.mod_eq_of_lt (lt_trans hklt hlt), Nat.mod_eq_of_lt hlt] at hkm
        omega
      simp [hne]
    · have hwr : (s.head + s.len) % cap = (if s.tail = cap then 0 else s.tail) := hT.symm
      simp [hwr]

theorem dequeue_zmsg_spec (cap : Nat) (s : MsgRing) (hc : 0 < cap)
    (hinv : RingInvM cap s) (hpos : 0 < s.len) :
    RingInvM cap (dequeue_zmsg_t cap s).2 ∧
    listOfM cap s = (dequeue_zmsg_t cap s).1 :: listOfM cap (dequeue_zmsg_t cap s).2 ∧
    (dequeue_zmsg_t cap s).2.len = s.len - 1 := by
  obtain ⟨h1, h2, h3, h4⟩ := hinv
  obtain ⟨l, hl⟩ : ∃ l, s.len = l + 1 := ⟨s.len - 1, by omega⟩
  have hne : ¬ s.len = 0 := by omega
  by_cases hh : s.head = cap - 1
  · have heq : dequeue_zmsg_t cap s = (s.base (cap - 1), ⟨s.base, 0, s.tail, s.len - 1⟩) := by
      simp only [dequeue_zmsg_t, if_neg hne, if_pos hh]
    rw [heq]
    refine ⟨⟨hc, h2, by show s.len - 1 ≤ cap; omega, ?_⟩, ?_, rfl⟩
    · show s.tail % cap = (0 + (s.len - 1)) % cap
      rw [h4, hh, hl]
      have hcl : cap - 1 + (l + 1) = cap + l := by omega
      rw [hcl, Nat.add_mod_left]
      simp
    · show listOfM cap s = s.base (cap - 1) :: listOfM cap ⟨s.base, 0, s.tail, s.len - 1⟩
      simp only [listOfM, hl, Nat.add_sub_cancel, List.range_succ_eq_map, List.map_cons,
        List.map_map]
      have hhead : s.base ((s.head + 0) % cap) = s.base (cap - 1) := by
        rw [Nat.add_zero, Nat.mod_eq_of_lt h1, hh]
      refine congrArg₂ List.cons hhead (map_congr_mem _ fun k _ => ?_)
      show s.base ((s.head + Nat.succ k) % cap) = s.base ((0 + k) % cap)
      have hck : s.head + Nat.succ k = cap + k := by omega
      rw [hck, Nat.add_mod_left, Nat.zero_add]
  · have hlt : s.head + 1 < cap := by omega
    have heq : dequeue_zmsg_t cap s = (s.base s.head, ⟨s.base, s.head + 1, s.tail, s.len - 1⟩) := by
      simp only [dequeue_zmsg_t, if_neg hne, if_neg hh]
    rw [heq]
    refine ⟨⟨hlt, h2, by show s.len - 1 ≤ cap; omega, ?_⟩, ?_, rfl⟩
    · show s.tail % cap = (s.head + 1 + (s.len - 1)) % cap
      have hsum : s.head + 1 + (s.len - 1) = s.head + s.len := by omega
      rw [hsum, h4]
    · show listOfM cap s = s.base s.head :: listOfM cap ⟨s.base, s.head + 1, s.tail, s.len - 1⟩
      simp only [listOfM, hl, Nat.add_sub_cancel, List.range_succ_eq_map, List.map_cons,
        List.map_map]
      have hhead : s.base ((s.head + 0) % cap) = s.base s.head := by
        rw [Nat.add_zero, Nat.mod_eq_of_lt h1]
      refine congrArg₂ List.cons hhead (map_congr_mem _ fun k _ => ?_)
      show s.base ((s.head + Nat.succ k) % cap) = s.base ((s.head + 1 + k) % cap)
      have hck : s.head + Nat.succ k = s.head + 1 + k := by omega
      rw [hck]

/-! ### Operation sequences on the rings (for the bounded-FIFO claim)

An operation sequence drives a ring from the zero-initialised state; the
abstract model is a plain bounded list-queue. -/

/-- An operation on the int ring. -/
inductive QOpI where
  | enq (x : Int)
  | deq
deriving DecidableEq

/-- An operation on the message ring. -/
inductive QOpM where
  | enq (m : Option Msg)
  | deq
deriving DecidableEq

/-- The zero-initialised int ring (the server struct is `memset` to 0). -/
def ring0I : IntRing := ⟨fun _ => 0, 0, 0, 0⟩

/-- The zero-initialised message ring. -/
def ring0M : MsgRing := ⟨fun _ => none, 0, 0, 0⟩

/-- Run a sequence of operations on an int ring, discarding results. -/
def runOpsI (cap : Nat) : List QOpI → IntRing → IntRing
  | [], s => s
  | QOpI.enq x :: rest, s => runOpsI cap rest (enqueue_int x cap s).2
  | QOpI.deq :: rest, s => runOpsI cap rest (dequeue_int cap s).2

/-- Run a sequence of operations on a message ring, discarding results. -/
def runOpsM (cap : Nat) : List QOpM → MsgRing → MsgRing
  | [], s => s
  | QOpM.enq m :: rest, s => runOpsM cap rest (enqueue_zmsg_t m cap s).2
  | QOpM.deq :: rest, s => runOpsM cap rest (dequeue_zmsg_t cap s).2

/-- Abstract bounded FIFO over lists (the specification-side model for the
int ring): enqueue appends unless full, dequeue drops the oldest element. -/
def fifoSpecI (cap : Nat) : List QOpI → List Int → List Int
  | [], l => l
  | QOpI.enq x :: rest, l => fifoSpecI cap rest (if l.length < cap then l ++ [x] else l)
  | QOpI.deq :: rest, l => fifoSpecI cap rest l.tail

/-- Abstract bounded FIFO over lists (specification-side model for the
message ring). -/
def fifoSpecM (cap : Nat) : List QOpM → List (Option Msg) → List (Option Msg)
  | [], l => l
  | QOpM.enq m :: rest, l => fifoSpecM cap rest (if l.length < cap then l ++ [m] else l)
  | QOpM.deq :: rest, l => fifoSpecM cap rest l.tail

/-- Does an int-ring operation only enqueue non-negative values?  (Worker
indices are non-negative, so `-1` can only mean "empty".) -/
def opNonneg : QOpI → Bool
  | QOpI.enq x => decide (0 ≤ x)
  | QOpI.deq => true

/-- Does a message-ring operation only enqueue non-NULL pointers? -/
def opNonnull : QOpM → Bool
  | QOpM.enq m => m.isSome
  | QOpM.deq => true

theorem runOpsI_spec (cap : Nat) (hc : 0 < cap) :
    ∀ (ops : List QOpI) (s : IntRing), RingInvI cap s →
    RingInvI cap (runOpsI cap ops s) ∧
    listOfI cap (runOpsI cap ops s) = fifoSpecI cap ops (listOfI cap s)
  | [], s, hinv => ⟨hinv, rfl⟩
  | QOpI.enq x :: rest, s, hinv => by
    by_cases hfull : s.len < cap
    · obtain ⟨-, hinv', hlist, -⟩ := enqueue_int_spec x cap s hc hinv hfull
      obtain ⟨ha, hb⟩ := runOpsI_spec cap hc rest (enqueue_int x cap s).2 hinv'
      refine ⟨ha, ?_⟩
      rw [show runOpsI cap (QOpI.enq x :: rest) s = runOpsI cap rest (enqueue_int x cap s).2
        from rfl, hb, hlist]
      have hlen : (listOfI cap s).length < cap := by rw [listOfI_length]; exact hfull
      simp [fifoSpecI, hlen]
    · have hfe : enqueue_int x cap s = (false, s) :=
        enqueue_int_of_full x cap s (by omega)
      obtain ⟨ha, hb⟩ := runOpsI_spec cap hc rest s hinv
      refine ⟨by rw [show runOpsI cap (QOpI.enq x :: rest) s
          = runOpsI cap rest (enqueue_int x cap s).2 from rfl, hfe]; exact ha, ?_⟩
      rw [show runOpsI cap (QOpI.enq x :: rest) s = runOpsI cap rest (enqueue_int x cap s).2
        from rfl, hfe]
      have hlen : ¬ (listOfI cap s).length < cap := by rw [listOfI_length]; omega
      simpa [fifoSpecI, hlen] using hb
  | QOpI.deq :: rest, s, hinv => by
    by_cases hzero : s.len = 0
    · have hde : dequeue_int cap s = (-1, s) := dequeue_int_of_empty cap s hzero
      obtain ⟨ha, hb⟩ := runOpsI_spec cap hc rest s hinv
      refine ⟨by rw [show runOpsI cap (QOpI.deq :: rest) s
          = runOpsI cap rest (dequeue_int cap s).2 from rfl, hde]; exact ha, ?_⟩
      rw [show runOpsI cap (QOpI.deq :: rest) s = runOpsI cap rest (dequeue_int cap s).2
        from rfl, hde]
      have hnil : listOfI cap s = [] := by
        have := listOfI_length cap s
        exact List.length_eq_zero.mp (by omega)
      simpa [fifoSpecI, hnil] using hb
    · obtain ⟨hinv', hlist, -⟩ := dequeue_int_spec cap s hc hinv (by omega)
      obtain ⟨ha, hb⟩ := runOpsI_spec cap hc rest (dequeue_int cap s).2 hinv'
      refine ⟨ha, ?_⟩
      rw [show runOpsI cap (QOpI.deq :: rest) s = runOpsI cap rest (dequeue_int cap s).2
        from rfl, hb]
      simp [fifoSpecI, hlist]

theorem runOpsM_spec (cap : Nat) (hc : 0 < cap) :
    ∀ (ops : List QOpM) (s : MsgRing), RingInvM cap s →
    RingInvM cap (runOpsM cap ops s) ∧
    listOfM cap (runOpsM cap ops s) = fifoSpecM cap ops (listOfM cap s)
  | [], s, hinv => ⟨hinv, rfl⟩
  | QOpM.enq m :: rest, s, hinv => by
    by_cases hfull : s.len < cap
    · obtain ⟨-, hinv', hlist, -⟩ := enqueue_zmsg_spec m cap s hc hinv hfull
      obtain ⟨ha, hb⟩ := runOpsM_spec cap hc rest (enqueue_zmsg_t m cap s).2 hinv'
      refine ⟨ha, ?_⟩
      rw [show runOpsM cap (QOpM.enq m :: rest) s = runOpsM cap rest (enqueue_zmsg_t m cap s).2
        from rfl, hb, hlist]
      have hlen : (listOfM cap s).length < cap := by rw [listOfM_length]; exact hfull
      simp [fifoSpecM, hlen]
    · have hfe : enqueue_zmsg_t m cap s = (false, s) :=
        enqueue_zmsg_of_full m cap s (by omega)
      obtain ⟨ha, hb⟩ := runOpsM_spec cap hc rest s hinv
      refine ⟨by rw [show runOpsM cap (QOpM.enq m :: rest) s
          = runOpsM cap rest (enqueue_zmsg_t m cap s).2 from rfl, hfe]; exact ha, ?_⟩
      rw [show runOpsM cap (QOpM.enq m :: rest) s = runOpsM cap rest (enqueue_zmsg_t m cap s).2
        from rfl, hfe]
      have hlen : ¬ (listOfM cap s).length < cap := by rw [listOfM_length]; omega
      simpa [fifoSpecM, hlen] using hb
  | QOpM.deq :: rest, s, hinv => by
    by_cases hzero : s.len = 0
    · have hde : dequeue_zmsg_t cap s = (none, s) := dequeue_zmsg_of_empty cap s hzero
      obtain ⟨ha, hb⟩ := runOpsM_spec cap hc rest s hinv
      refine ⟨by rw [show runOpsM cap (QOpM.deq :: rest) s
          = runOpsM cap rest (dequeue_zmsg_t cap s).2 from rfl, hde]; exact ha, ?_⟩
      rw [show runOpsM cap (QOpM.deq :: rest) s = runOpsM cap rest (dequeue_zmsg_t cap s).2
        from rfl, hde]
      have hnil : listOfM cap s = [] := by
        have := listOfM_length cap s
        exact List.length_eq_zero.mp (by omega)
      simpa [fifoSpecM, hnil] using hb
    · obtain ⟨hinv', hlist, -⟩ := dequeue_zmsg_spec cap s hc hinv (by omega)
      obtain ⟨ha, hb⟩ := runOpsM_spec cap hc rest (dequeue_zmsg_t cap s).2 hinv'
      refine ⟨ha, ?_⟩
      rw [show runOpsM cap (QOpM.deq :: rest) s = runOpsM cap rest (dequeue_zmsg_t cap s).2
        from rfl, hb]
      simp [fifoSpecM, hlist]

theorem ring0I_inv (cap : Nat) (hc : 0 < cap) : RingInvI cap ring0I :=
  ⟨hc, by show (0 : Nat) ≤ cap; omega, by show (0 : Nat) ≤ cap; omega, rfl⟩

theorem ring0M_inv (cap : Nat) (hc : 0 < cap) : RingInvM cap ring0M :=
  ⟨hc, by show (0 : Nat) ≤ cap; omega, by show (0 : Nat) ≤ cap; omega, rfl⟩

theorem listOfI_ring0 (cap : Nat) : listOfI cap ring0I = [] := rfl

theorem listOfM_ring0 (cap : Nat) : listOfM cap ring0M = [] := rfl

theorem runOpsI_nonneg (cap : Nat) (hc : 0 < cap) :
    ∀ (ops : List QOpI) (s : IntRing), RingInvI cap s →
    (∀ op ∈ ops, opNonneg op = true) →
    (∀ v ∈ listOfI cap s, 0 ≤ v) →
    ∀ v ∈ listOfI cap (runOpsI cap ops s), 0 ≤ v
  | [], s, _, _, hval => hval
  | QOpI.enq x :: rest, s, hinv, hops, hval => by
    have hx : 0 ≤ x := by
      have := hops (QOpI.enq x) (by simp)
      simpa [opNonneg] using this
    by_cases hfull : s.len < cap
    · obtain ⟨-, hinv', hlist, -⟩ := enqueue_int_spec x cap s hc hinv hfull
      refine runOpsI_nonneg cap hc rest (enqueue_int x cap s).2 hinv'
        (fun op hop => hops op (by simp [hop])) ?_
      rw [hlist]
      intro v hv
      rcases List.mem_append.mp hv with hv | hv
      · exact hval v hv
      · simp only [List.mem_singleton] at hv
        exact hv ▸ hx
    · have hfe : enqueue_int x cap s = (false, s) := enqueue_int_of_full x cap s (by omega)
      show ∀ v ∈ listOfI cap (runOpsI cap rest (enqueue_int x cap s).2), 0 ≤ v
      rw [hfe]
      exact runOpsI_nonneg cap hc rest s hinv (fun op hop => hops op (by simp [hop])) hval
  | QOpI.deq :: rest, s, hinv, hops, hval => by
    by_cases hzero : s.len = 0
    · have hde : dequeue_int cap s = (-1, s) := dequeue_int_of_empty cap s hzero
      show ∀ v ∈ listOfI cap (runOpsI cap rest (dequeue_int cap s).2), 0 ≤ v
      rw [hde]
      exact runOpsI_nonneg cap hc rest s hinv (fun op hop => hops op (by simp [hop])) hval
    · obtain ⟨hinv', hlist, -⟩ := dequeue_int_spec cap s hc hinv (by omega)
      refine runOpsI_nonneg cap hc rest (dequeue_int cap s).2 hinv'
        (fun op hop => hops op (by simp [hop])) ?_
      intro v hv
      exact hval v (by rw [hlist]; simp [hv])

theorem runOpsM_nonnull (cap : Nat) (hc : 0 < cap) :
    ∀ (ops : List QOpM) (s : MsgRing), RingInvM cap s →
    (∀ op ∈ ops, opNonnull op = true) →
    (∀ v ∈ listOfM cap s, v.isSome) →
    ∀ v ∈ listOfM cap (runOpsM cap ops s), v.isSome
  | [], s, _, _, hval => hval
  | QOpM.enq m :: rest, s, hinv, hops, hval => by
    have hm : m.isSome := by
      have := hops (QOpM.enq m) (by simp)
      simpa [opNonnull] using this
    by_cases hfull : s.len < cap
    · obtain ⟨-, hinv', hlist, -⟩ := enqueue_zmsg_spec m cap s hc hinv hfull
      refine runOpsM_nonnull cap hc rest (enqueue_zmsg_t m cap s).2 hinv'
        (fun op hop => hops op (by simp [hop])) ?_
      rw [hlist]
      intro v hv
      rcases List.mem_append.mp hv with hv | hv
      · exact hval v hv
      · simp only [List.mem_singleton] at hv
        exact hv ▸ hm
    · have hfe : enqueue_zmsg_t m cap s = (false, s) := enqueue_zmsg_of_full m cap s (by omega)
      show ∀ v ∈ listOfM cap (runOpsM cap rest (enqueue_zmsg_t m cap s).2), v.isSome
      rw [hfe]
      exact runOpsM_nonnull cap hc rest s hinv (fun op hop => hops op (by simp [hop])) hval
  | QOpM.deq :: rest, s, hinv, hops, hval => by
    by_cases hzero : s.len = 0
    · have hde : dequeue_zmsg_t cap s = (none, s) := dequeue_zmsg_of_empty cap s hzero
      show ∀ v ∈ listOfM cap (runOpsM cap rest (dequeue_zmsg_t cap s).2), v.isSome
      rw [hde]
      exact runOpsM_nonnull cap hc rest s hinv (fun op hop => hops op (by simp [hop])) hval
    · obtain ⟨hinv', hlist, -⟩ := dequeue_zmsg_spec cap s hc hinv (by omega)
      refine runOpsM_nonnull cap hc rest (dequeue_zmsg_t cap s).2 hinv'
        (fun op hop => hops op (by simp [hop])) ?_
      intro v hv
      exact hval v (by rw [hlist]; simp [hv])

/-! ### Broker state and event-loop bodies (server.c lines 262-341)

`frontStep` is the body of the frontend drain loop run on one received
envelope; `backStep` is the body of the backend drain loop.  A `none` result
models a czmq assertion failure / undefined behaviour (`zmsg_addstr` with a
NULL string, `zmsg_add` with a NULL frame, `zframe_streq` on a NULL frame,
out-of-bounds `workers[worker_ix]`). -/

/-- `#define number_of_workers 4` -/
def number_of_workers : Nat := 4

/-- `#define request_queue_length 512` -/
def request_queue_length : Nat := 512

/-- The worker identities assigned at startup: `snprintf(identity, 5, "%04d", i)`
for i = 0..3. -/
def identities : List Frame :=
  [strBytes "0000", strBytes "0001", strBytes "0002", strBytes "0003"]

/-- Identity of worker `i` (contents of `server->workers[i]->identity`). -/
def workerIdentity (i : Fin number_of_workers) : Frame := identities.getD i.val []

/-- The linear identity scan of the backend handler:
`size_t worker_id_int = 0; for (i...) if (zframe_streq(worker_id, workers[i]->identity)) { worker_id_int = i; break; }`.
Index of the first match, 0 if nothing matches. -/
def scanIdentityAux : List Frame → Frame → Nat → Nat
  | [], _, _ => 0
  | f :: rest, wid, i => if f = wid then i else scanIdentityAux rest wid (i + 1)

/-- Top-level entry of the identity scan, starting at index 0. -/
def scanIdentity (ids : List Frame) (wid : Frame) : Nat := scanIdentityAux ids wid 0

/-- The broker scheduler state owned by `crpc_server_main`. -/
structure BrokerState where
  free_workers_q : IntRing
  queued_messages : MsgRing

/-- The broker state right after `crpc_start_server`'s
`memset(server, 0, sizeof(crpc_server))`. -/
def broker0 : BrokerState := ⟨ring0I, ring0M⟩

/-- What the frontend handler did with one envelope. -/
inductive FrontOut where
  | dispatched (ix : Nat) (be_msg : Msg)
  | enqueued
deriving DecidableEq

/-- What the backend handler did after forwarding: redispatched a queued
envelope to the responding worker (and broke out of the drain loop), or
enqueued the worker index into the free queue. -/
inductive BackOut where
  | redispatched (be_msg : Msg)
  | freed (ix : Nat)
deriving DecidableEq

/-- Body of the frontend drain loop (server.c lines 269-295) on one received
envelope `msg`.  If a worker is free it is dequeued and the first four frames
of `msg` are sent to the backend as `[identity, "", f1, f2, f3, f4]`; else if
the overflow queue has room the whole envelope is queued; else the code falls
through with `id = NULL` and `zmsg_addstr(be_msg, NULL)` aborts (`none`).
A `none` also models `zmsg_add(be_msg, NULL)` when `msg` has fewer than four
frames, and the `assert(worker_ix >= 0)` / `workers[worker_ix]` bound. -/
def frontStep (s : BrokerState) (msg : Msg) : Option (BrokerState × FrontOut) :=
  if 0 < s.free_workers_q.len then
    let d := dequeue_int number_of_workers s.free_workers_q
    if 0 ≤ d.1 ∧ d.1.toNat < number_of_workers then
      match msg with
      | f1 :: f2 :: f3 :: f4 :: _ =>
        some ({ s with free_workers_q := d.2 },
          FrontOut.dispatched d.1.toNat [identities.getD d.1.toNat [], [], f1, f2, f3, f4])
      | _ => none
    else none
  else if s.queued_messages.len < request_queue_length then
    some ({ s with queued_messages :=
              (enqueue_zmsg_t (some msg) request_queue_length s.queued_messages).2 },
          FrontOut.enqueued)
  else none

/-- Body of the backend drain loop (server.c lines 296-333) on one received
envelope.  Pops the worker identity and the empty separator, scans for the
worker index, forwards the remaining frames to the frontend (the second
component of the result), then either redispatches a queued envelope to the
same worker or enqueues the worker index into the free queue. -/
def backStep (s : BrokerState) (msg : Msg) : Option (BrokerState × Msg × BackOut) :=
  match msg with
  | [] => none
  | worker_id :: rest =>
    let zero := rest.head?
    let fwd := rest.tail
    let worker_id_int := scanIdentity identities worker_id
    if 0 < s.queued_messages.len then
      let d := dequeue_zmsg_t request_queue_length s.queued_messages
      match d.1 with
      | some qmsg =>
        match zero, qmsg with
        | some z, q1 :: q2 :: q3 :: q4 :: _ =>
          some ({ s with queued_messages := d.2 }, fwd,
                BackOut.redispatched [worker_id, z, q1, q2, q3, q4])
        | _, _ => none
      | none =>
        some (⟨(enqueue_int (worker_id_int : Int) number_of_workers s.free_workers_q).2, d.2⟩,
              fwd, BackOut.freed worker_id_int)
    else
      some ({ s with free_workers_q :=
                (enqueue_int (worker_id_int : Int) number_of_workers s.free_workers_q).2 },
            fwd, BackOut.freed worker_id_int)

/-! ### Protocol buffer messages (rpc.pb-c.h) and the worker loop -/

/-- `Proto__RPCResponse__Status` (numeric values in comments follow the
enum: UNKNOWN 0, OK 1, NOT_FOUND 2, NOT_OK 4, SERVER_ERROR 5, TIMEOUT 6,
OVERLOADED_RETRY 7, CLIENT_REQUEST_ERROR 9, CLIENT_NETWORK_ERROR 10,
CLIENT_CALLED_WRONG 11, MISSED_DEADLINE 12, LOADSHED 13, UNHEALTHY 14). -/
inductive Status where
  | status_unknown
  | status_ok
  | status_not_found
  | status_not_ok
  | status_server_error
  | status_timeout
  | status_overloaded_retry
  | status_client_request_error
  | status_client_network_error
  | status_client_called_wrong
  | status_missed_deadline
  | status_loadshed
  | status_unhealthy
deriving DecidableEq

/-- `ProtobufCBinaryData`: a length and a byte pointer. -/
structure BinaryData where
  len : Nat
  data : List Nat
deriving DecidableEq

/-- `Proto__RPCRequest` (char* fields that the worker dereferences are
`String`; optional pointers are `Option`). -/
structure RPCRequest where
  rpc_id : String
  srvc : String
  procedure : String
  data : BinaryData
  has_deadline : Bool
  deadline : Int
  caller_id : Option String
  has_want_trace : Bool
  want_trace : Bool
deriving DecidableEq

/-- `Proto__TraceInfo`; `n_child_calls` stays 0 in this server. -/
structure TraceInfo where
  received_time : Int
  replied_time : Int
  machine_name : Option String
  endpoint_name : Option String
  error_message : Option String
  redirect : Option String
  n_child_calls : Nat
deriving DecidableEq

/-- `proto__trace_info__init` / the zeroed `crpc_trace_context`. -/
def traceInfoInit : TraceInfo := ⟨0, 0, none, none, none, none, 0⟩

/-- `Proto__RPCResponse`. -/
structure RPCResponse where
  rpc_id : Option String
  has_response_data : Bool
  response_data : BinaryData
  response_status : Status
  error_message : Option String
  traceinfo : Option TraceInfo
deriving DecidableEq

/-- `crpc_request` from server.c: the four popped frames plus the decoded
payload (`NULL`, i.e. `none`, when `proto__rpcrequest__unpack` failed). -/
structure CrpcRequest where
  client_id : Frame
  request_id : Frame
  zero : Frame
  data : Frame
  request : Option RPCRequest
deriving DecidableEq

/-- `crpc_initialize_request`: reject unless the envelope has exactly 4
frames, then pop them and unpack the payload frame.  `unpack` stands for
`proto__rpcrequest__unpack` (external protobuf-c library). -/
def crpc_initialize_request (unpack : Frame → Option RPCRequest) (msg : Msg) :
    Option CrpcRequest :=
  match msg with
  | [c, r, z, d] => some ⟨c, r, z, d, unpack d⟩
  | _ => none

/-- `crpc_initialize_trace` on an already-decoded request `r`.  The static
`machine_name` cache is threaded explicitly: `gethostname_result` is what
`gethostname` would write on this call; the cache is filled on the first
traced request and reused afterwards.  Returns the new cache, the trace
context and the C function's boolean result.  The endpoint string is built
as `srvc`, then `"."`, then `procedure` (the three strcpy calls). -/
def crpc_initialize_trace (gethostname_result : String) (machine_name_cache : Option String)
    (now : Int) (r : RPCRequest) : Option String × TraceInfo × Bool :=
  if r.want_trace = false then (machine_name_cache, traceInfoInit, false)
  else
    let machine_name := machine_name_cache.getD gethostname_result
    (some machine_name,
     { traceInfoInit with
         machine_name := some machine_name,
         endpoint_name := some (r.srvc ++ "." ++ r.procedure),
         received_time := now },
     true)

/-- `crpc_attach_trace`: attach the trace (with `replied_time` stamped `now`)
iff `received_time` is non-zero. -/
def crpc_attach_trace (response : RPCResponse) (tc : TraceInfo) (now : Int) :
    RPCResponse × Bool :=
  if tc.received_time = 0 then (response, false)
  else ({ response with traceinfo := some { tc with replied_time := now } }, true)

/-- The four-frame response envelope handed to `zmsg_send` by
`send_response` (serialization by `proto__rpcresponse__pack` is kept
symbolic: the response value itself is recorded). -/
structure SentResponse where
  client_id : Frame
  request_id : Frame
  zero : Frame
  response : RPCResponse
deriving DecidableEq

/-- `send_response`: build the RPCResponse (`has_response_data` always true,
`rpc_id` echoed from the request), attach the trace if captured, and send
`[client_id, request_id, zero, payload]`. -/
def send_response (client_id request_id zero : Frame) (rpc_id : String) (tc : TraceInfo)
    (now_reply : Int) (error_message : Option String) (status : Status)
    (response_data : List Nat) (response_data_len : Nat) : SentResponse :=
  let response : RPCResponse :=
    { rpc_id := some rpc_id, has_response_data := true,
      response_data := ⟨response_data_len, response_data⟩,
      response_status := status, error_message := error_message, traceinfo := none }
  ⟨client_id, request_id, zero, (crpc_attach_trace response tc now_reply).1⟩

/-- `crpc_context` from server.h: input bytes/length in, success flag,
error string and response buffer out. -/
structure CrpcContext where
  input : List Nat
  input_len : Nat
  ok : Bool
  error_string : Option String
  response : List Nat
  response_len : Nat
deriving DecidableEq

/-- The context handed to the user handler (OUT fields defaulted; the C
leaves them uninitialized and the handler contract is to set them). -/
def workerCtx0 (r : RPCRequest) : CrpcContext :=
  ⟨r.data.data, r.data.len, false, none, [], 0⟩

/-- One iteration of the worker loop `crpc_server_thread` on a received
envelope `msg`.  Result: `none` models the NULL-dereference of
`request->request` in `crpc_initialize_trace` when the payload failed to
unpack; `some (none, cache)` is the "log and discard" path for a bad frame
count; `some (some sent, cache)` is a sent response together with the
updated machine-name cache. -/
def crpc_server_thread_step (unpack : Frame → Option RPCRequest)
    (dispatch : String → String → Option (CrpcContext → CrpcContext))
    (gethostname_result : String) (machine_name_cache : Option String)
    (now_recv now_reply : Int) (msg : Msg) :
    Option (Option SentResponse × Option String) :=
  match crpc_initialize_request unpack msg with
  | none => some (none, machine_name_cache)
  | some req =>
    match req.request with
    | none => none
    | some r =>
      let itr := crpc_initialize_trace gethostname_result machine_name_cache now_recv r
      let cache := itr.1
      let tc := itr.2.1
      match dispatch r.srvc r.procedure with
      | none =>
        some (some (send_response req.client_id req.request_id req.zero r.rpc_id tc now_reply
          (some "no handler could be found") Status.status_not_found [] 0), cache)
      | some handler =>
        let ctx := handler (workerCtx0 r)
        if ctx.ok = false then
          some (some (send_response req.client_id req.request_id req.zero r.rpc_id tc now_reply
            ctx.error_string Status.status_not_ok [] 0), cache)
        else
          some (some (send_response req.client_id req.request_id req.zero r.rpc_id tc now_reply
            (some "") Status.status_ok ctx.response ctx.response_len), cache)

/-- `const char* ready_string = "__ready__";` -/
def ready_string : String := "__ready__"

/-- The four frames of the READY envelope a worker sends on startup
(`crpc_server_thread` lines 213-218). -/
def readyPayload : Msg :=
  [strBytes "BOGUS_CLIENT_ID", strBytes "REQUEST_ID", [], strBytes ready_string]

/-! ### The broker event loop as a transition system (for the scheduler
invariant)

One system state is the broker's scheduler state plus a ghost phase for each
worker: `starting` before its READY envelope reaches the broker, `busy`
while it holds a dispatched request, `waiting` while it is blocked on
`zmsg_recv`.  A worker produces a backend envelope only when it is not
waiting (its READY when starting, its response when busy); the broker's
handlers are exactly `frontStep` / `backStep`. -/

/-- Ghost phase of a worker thread. -/
inductive Phase where
  | starting
  | waiting
  | busy
deriving DecidableEq

/-- A system state: broker scheduler state plus worker phases. -/
structure Sys where
  broker : BrokerState
  phase : Fin number_of_workers → Phase

/-- Initial state: zeroed broker, all workers started but not yet
registered. -/
def sys0 : Sys := ⟨broker0, fun _ => Phase.starting⟩

/-- One event processed by the broker loop. -/
inductive SysStep : Sys → Sys → Prop where
  | frontDispatch (s : Sys) (msg : Msg) (b' : BrokerState) (ix : Nat) (be : Msg)
      (h4 : ix < number_of_workers)
      (h : frontStep s.broker msg = some (b', FrontOut.dispatched ix be)) :
      SysStep s ⟨b', Function.update s.phase ⟨ix, h4⟩ Phase.busy⟩
  | frontEnqueue (s : Sys) (msg : Msg) (b' : BrokerState)
      (h : frontStep s.broker msg = some (b', FrontOut.enqueued)) :
      SysStep s ⟨b', s.phase⟩
  | backFree (s : Sys) (i : Fin number_of_workers) (payload : Msg) (b' : BrokerState)
      (fwd : Msg) (ix : Nat)
      (hph : s.phase i ≠ Phase.waiting)
      (h : backStep s.broker (workerIdentity i :: ([] : Frame) :: payload)
            = some (b', fwd, BackOut.freed ix)) :
      SysStep s ⟨b', Function.update s.phase i Phase.waiting⟩
  | backRedispatch (s : Sys) (i : Fin number_of_workers) (payload : Msg) (b' : BrokerState)
      (fwd : Msg) (be : Msg)
      (hph : s.phase i ≠ Phase.waiting)
      (h : backStep s.broker (workerIdentity i :: ([] : Frame) :: payload)
            = some (b', fwd, BackOut.redispatched be)) :
      SysStep s ⟨b', Function.update s.phase i Phase.busy⟩

/-- Reachability of a system state from startup. -/
def Reach (s : Sys) : Prop := Relation.ReflTransGen SysStep sys0 s

/-- Contents of `free_workers_q`, oldest first. -/
def freeListS (s : Sys) : List Int := listOfI number_of_workers s.broker.free_workers_q

/-- The broker scheduler invariant: both rings well-formed, the free queue
holds no duplicates, everything in it is the index of a waiting worker, and
every waiting worker is in it. -/
def SysInv (s : Sys) : Prop :=
  RingInvI number_of_workers s.broker.free_workers_q ∧
  RingInvM request_queue_length s.broker.queued_messages ∧
  (freeListS s).Nodup ∧
  (∀ v ∈ freeListS s,
    ∃ i : Fin number_of_workers, v = (i.val : Int) ∧ s.phase i = Phase.waiting) ∧
  (∀ i : Fin number_of_workers, s.phase i = Phase.waiting → ((i.val : Int) ∈ freeListS s))

theorem scan_workerIdentity (i : Fin number_of_workers) :
    scanIdentity identities (workerIdentity i) = i.val := by
  fin_cases i <;> decide

theorem frontStep_dispatched_inv {s : BrokerState} {msg : Msg} {b' : BrokerState} {ix : Nat}
    {be : Msg} (h : frontStep s msg = some (b', FrontOut.dispatched ix be)) :
    0 < s.free_workers_q.len ∧
    0 ≤ (dequeue_int number_of_workers s.free_workers_q).1 ∧
    ix = (dequeue_int number_of_workers s.free_workers_q).1.toNat ∧
    b' = { s with free_workers_q := (dequeue_int number_of_workers s.free_workers_q).2 } := by
  simp only [frontStep] at h
  split at h
  case isTrue hpos =>
    split at h
    case isTrue hw =>
      split at h
      · simp only [Option.some.injEq, Prod.mk.injEq, FrontOut.dispatched.injEq] at h
        exact ⟨hpos, hw.1, h.2.1.symm, h.1.symm⟩
      · exact absurd h (by simp)
    case isFalse hw => exact absurd h (by simp)
  case isFalse hpos =>
    split at h
    · simp at h
    · simp at h

theorem frontStep_enqueued_inv {s : BrokerState} {msg : Msg} {b' : BrokerState}
    (h : frontStep s msg = some (b', FrontOut.enqueued)) :
    ¬ 0 < s.free_workers_q.len ∧ s.queued_messages.len < request_queue_length ∧
    b' = { s with queued_messages :=
      (enqueue_zmsg_t (some msg) request_queue_length s.queued_messages).2 } := by
  simp only [frontStep] at h
  split at h
  case isTrue hpos =>
    split at h
    case isTrue hw =>
      split at h
      · simp at h
      · simp at h
    case isFalse hw => simp at h
  case isFalse hpos =>
    split at h
    case isTrue hroom =>
      simp only [Option.some.injEq, Prod.mk.injEq] at h
      exact ⟨hpos, hroom, h.1.symm⟩
    case isFalse hroom => simp at h

theorem backStep_freed_inv {s : BrokerState} {worker_id : Frame} {rest : Msg}
    {b' : BrokerState} {fwd : Msg} {ix : Nat}
    (h : backStep s (worker_id :: rest) = some (b', fwd, BackOut.freed ix)) :
    fwd = rest.tail ∧ ix = scanIdentity identities worker_id ∧
    b'.free_workers_q = (enqueue_int ((scanIdentity identities worker_id : Nat) : Int)
      number_of_workers s.free_workers_q).2 ∧
    ((b'.queued_messages = s.queued_messages ∧ ¬ 0 < s.queued_messages.len) ∨
     (0 < s.queued_messages.len ∧
      b'.queued_messages = (dequeue_zmsg_t request_queue_length s.queued_messages).2)) := by
  by_cases hq : 0 < s.queued_messages.len
  · rcases hd : (dequeue_zmsg_t request_queue_length s.queued_messages).1 with - | qmsg
    · simp only [backStep, if_pos hq, hd] at h
      simp only [Option.some.injEq, Prod.mk.injEq, BackOut.freed.injEq] at h
      obtain ⟨hb, hfwd, hix⟩ := h
      exact ⟨hfwd.symm, hix.symm, by rw [← hb], Or.inr ⟨hq, by rw [← hb]⟩⟩
    · simp only [backStep, if_pos hq, hd] at h
      split at h <;> simp at h
  · simp only [backStep, if_neg hq] at h
    simp only [Option.some.injEq, Prod.mk.injEq, BackOut.freed.injEq] at h
    obtain ⟨hb, hfwd, hix⟩ := h
    exact ⟨hfwd.symm, hix.symm, by rw [← hb], Or.inl ⟨by rw [← hb], hq⟩⟩

theorem backStep_redispatched_inv {s : BrokerState} {worker_id : Frame} {rest : Msg}
    {b' : BrokerState} {fwd : Msg} {be : Msg}
    (h : backStep s (worker_id :: rest) = some (b', fwd, BackOut.redispatched be)) :
    fwd = rest.tail ∧ 0 < s.queued_messages.len ∧
    b'.free_workers_q = s.free_workers_q ∧
    b'.queued_messages = (dequeue_zmsg_t request_queue_length s.queued_messages).2 := by
  by_cases hq : 0 < s.queued_messages.len
  · rcases hd : (dequeue_zmsg_t request_queue_length s.queued_messages).1 with - | qmsg
    · simp only [backStep, if_pos hq, hd] at h
      simp at h
    · simp only [backStep, if_pos hq, hd] at h
      split at h
      · simp only [Option.some.injEq, Prod.mk.injEq, BackOut.redispatched.injEq] at h
        obtain ⟨hb, hfwd, -⟩ := h
        exact ⟨hfwd.symm, hq, by rw [← hb], by rw [← hb]⟩
      · simp at h
  · simp only [backStep, if_neg hq] at h
    simp at h

theorem freeLen_eq_waitingCard (s : Sys) (h : SysInv s) :
    s.broker.free_workers_q.len
      = (Finset.univ.filter fun i : Fin number_of_workers =>
          s.phase i = Phase.waiting).card := by
  obtain ⟨-, -, hnd, hmw, hwm⟩ := h
  have hlen : s.broker.free_workers_q.len = (freeListS s).length :=
    (listOfI_length _ _).symm
  rw [hlen, ← List.toFinset_card_of_nodup hnd]
  have himg : (freeListS s).toFinset
      = (Finset.univ.filter fun i : Fin number_of_workers =>
          s.phase i = Phase.waiting).image
            (fun i : Fin number_of_workers => (i.val : Int)) := by
    ext v
    simp only [List.mem_toFinset, Finset.mem_image, Finset.mem_filter, Finset.mem_univ,
      true_and]
    constructor
    · intro hv
      obtain ⟨i, rfl, hw⟩ := hmw v hv
      exact ⟨i, hw, rfl⟩
    · rintro ⟨i, hw, rfl⟩
      exact hwm i hw
  rw [himg, Finset.card_image_of_injective]
  intro a b hab
  have hab2 : ((a.val : Int)) = (b.val : Int) := hab
  exact Fin.ext (by exact_mod_cast hab2)

theorem freeLen_lt_of_not_waiting (s : Sys) (h : SysInv s) (i : Fin number_of_workers)
    (hph : s.phase i ≠ Phase.waiting) :
    s.broker.free_workers_q.len < number_of_workers := by
  rw [freeLen_eq_waitingCard s h]
  have hsub : (Finset.univ.filter fun j : Fin number_of_workers =>
      s.phase j = Phase.waiting) ⊆ Finset.univ.erase i := by
    intro j hj
    simp only [Finset.mem_filter] at hj
    refine Finset.mem_erase.mpr ⟨?_, Finset.mem_univ j⟩
    rintro rfl
    exact hph hj.2
  have hle := Finset.card_le_card hsub
  have hcard : (Finset.univ.erase i).card = number_of_workers - 1 := by
    rw [Finset.card_erase_of_mem (Finset.mem_univ i), Finset.card_univ, Fintype.card_fin]
  have hnw : 0 < number_of_workers := by decide
  omega

theorem sysInv_init : SysInv sys0 := by
  refine ⟨ring0I_inv _ (by decide), ring0M_inv _ (by decide), ?_, ?_, ?_⟩
  · exact List.nodup_nil
  · intro v hv
    exact absurd hv (List.not_mem_nil v)
  · intro i hw
    exact Phase.noConfusion hw

theorem sysInv_step {s s' : Sys} (hinv : SysInv s) (hstep : SysStep s s') : SysInv s' := by
  have hnw : 0 < number_of_workers := by decide
  obtain ⟨hfi, hqi, hnd, hmw, hwm⟩ := hinv
  cases hstep with
  | frontDispatch msg b' ix be h4 h =>
    obtain ⟨hpos, hge, hix, hb⟩ := frontStep_dispatched_inv h
    obtain ⟨hinv', hlist, -⟩ :=
      dequeue_int_spec number_of_workers s.broker.free_workers_q hnw hfi hpos
    subst hb
    have hfl : freeListS s
        = (dequeue_int number_of_workers s.broker.free_workers_q).1
          :: listOfI number_of_workers
              (dequeue_int number_of_workers s.broker.free_workers_q).2 := hlist
    have hnd' := hfl ▸ hnd
    have hnotmem := (List.nodup_cons.mp hnd').1
    have htl := (List.nodup_cons.mp hnd').2
    have hdval : ((dequeue_int number_of_workers s.broker.free_workers_q).1.toNat : Int)
        = (dequeue_int number_of_workers s.broker.free_workers_q).1 :=
      Int.toNat_of_nonneg hge
    refine ⟨hinv', hqi, htl, ?_, ?_⟩
    · intro v hv
      have hvt : v ∈ listOfI number_of_workers
          (dequeue_int number_of_workers s.broker.free_workers_q).2 := hv
      have hvs : v ∈ freeListS s := by
        rw [hfl]; exact List.mem_cons_of_mem _ hvt
      obtain ⟨j, rfl, hw⟩ := hmw v hvs
      refine ⟨j, rfl, ?_⟩
      have hji : j ≠ (⟨ix, h4⟩ : Fin number_of_workers) := by
        rintro rfl
        apply hnotmem
        have hv2 : ((ix : Nat) : Int) ∈ listOfI number_of_workers
            (dequeue_int number_of_workers s.broker.free_workers_q).2 := by
          simpa using hvt
        rw [hix, hdval] at hv2
        exact hv2
      show Function.update s.phase ⟨ix, h4⟩ Phase.busy j = Phase.waiting
      rw [Function.update_noteq hji]
      exact hw
    · intro j hj
      have hj2 : Function.update s.phase ⟨ix, h4⟩ Phase.busy j = Phase.waiting := hj
      have hji : j ≠ (⟨ix, h4⟩ : Fin number_of_workers) := by
        rintro rfl
        rw [Function.update_same] at hj2
        exact Phase.noConfusion hj2
      rw [Function.update_noteq hji] at hj2
      have hmem := hwm j hj2
      rw [hfl] at hmem
      rcases List.mem_cons.mp hmem with hv | hv
      · exfalso
        apply hji
        apply Fin.ext
        have h5 : ((j.val : Int)).toNat = (dequeue_int number_of_workers
            s.broker.free_workers_q).1.toNat := by rw [hv]
        show j.val = ix
        rw [hix]
        simpa using h5
      · exact hv
  | frontEnqueue msg b' h =>
    obtain ⟨-, hroom, hb⟩ := frontStep_enqueued_inv h
    subst hb
    obtain ⟨-, hqi', -, -⟩ := enqueue_zmsg_spec (some msg) request_queue_length
      s.broker.queued_messages (by decide) hqi hroom
    exact ⟨hfi, hqi', hnd, hmw, hwm⟩
  | backFree i payload b' fwd ix hph h =>
    have hinvS : SysInv s := ⟨hfi, hqi, hnd, hmw, hwm⟩
    obtain ⟨-, hix, hbf, hbq⟩ := backStep_freed_inv h
    rw [scan_workerIdentity] at hix hbf
    have hlen : s.broker.free_workers_q.len < number_of_workers :=
      freeLen_lt_of_not_waiting s hinvS i hph
    obtain ⟨-, hinv', hlist, -⟩ := enqueue_int_spec ((i.val : Nat) : Int) number_of_workers
      s.broker.free_workers_q hnw hfi hlen
    have hnotmem : ((i.val : Nat) : Int) ∉ freeListS s := by
      intro hmem
      obtain ⟨j, hji, hw⟩ := hmw _ hmem
      have : j = i := Fin.ext (by exact_mod_cast hji.symm)
      subst this
      exact hph hw
    have hfl' : freeListS ⟨b', Function.update s.phase i Phase.waiting⟩
        = freeListS s ++ [((i.val : Nat) : Int)] := by
      show listOfI number_of_workers b'.free_workers_q = _
      rw [hbf]
      exact hlist
    refine ⟨by rw [show (⟨b', Function.update s.phase i Phase.waiting⟩ : Sys).broker = b'
        from rfl, hbf]; exact hinv', ?_, ?_, ?_, ?_⟩
    · rcases hbq with ⟨hsame, -⟩ | ⟨hqpos, hdq⟩
      · rw [show (⟨b', Function.update s.phase i Phase.waiting⟩ : Sys).broker = b' from rfl,
          hsame]
        exact hqi
      · rw [show (⟨b', Function.update s.phase i Phase.waiting⟩ : Sys).broker = b' from rfl,
          hdq]
        exact (dequeue_zmsg_spec request_queue_length s.broker.queued_messages
          (by decide) hqi hqpos).1
    · rw [hfl']
      exact hnd.append (List.nodup_singleton _)
        (fun a ha hb => hnotmem (by simpa using (List.mem_singleton.mp hb) ▸ ha))
    · intro v hv
      rw [hfl'] at hv
      rcases List.mem_append.mp hv with hv | hv
      · obtain ⟨j, rfl, hw⟩ := hmw v hv
        refine ⟨j, rfl, ?_⟩
        show Function.update s.phase i Phase.waiting j = Phase.waiting
        rcases eq_or_ne j i with rfl | hne
        · rw [Function.update_same]
        · rw [Function.update_noteq hne]; exact hw
      · refine ⟨i, List.mem_singleton.mp hv, ?_⟩
        show Function.update s.phase i Phase.waiting i = Phase.waiting
        rw [Function.update_same]
    · intro j hj
      rw [hfl']
      rcases eq_or_ne j i with rfl | hne
      · exact List.mem_append_right _ (List.mem_singleton.mpr rfl)
      · show (j.val : Int) ∈ freeListS s ++ _
        have hjw : s.phase j = Phase.waiting := by
          have : Function.update s.phase i Phase.waiting j = Phase.waiting := hj
          rwa [Function.update_noteq hne] at this
        exact List.mem_append_left _ (hwm j hjw)
  | backRedispatch i payload b' fwd be hph h =>
    obtain ⟨-, hqpos, hbf, hbq⟩ := backStep_redispatched_inv h
    have hfl' : freeListS ⟨b', Function.update s.phase i Phase.busy⟩ = freeListS s := by
      show listOfI number_of_workers b'.free_workers_q = _
      rw [hbf]; rfl
    refine ⟨by rw [show (⟨b', Function.update s.phase i Phase.busy⟩ : Sys).broker = b'
        from rfl, hbf]; exact hfi, ?_, by rw [hfl']; exact hnd, ?_, ?_⟩
    · rw [show (⟨b', Function.update s.phase i Phase.busy⟩ : Sys).broker = b' from rfl, hbq]
      exact (dequeue_zmsg_spec request_queue_length s.broker.queued_messages
        (by decide) hqi hqpos).1
    · intro v hv
      rw [hfl'] at hv
      obtain ⟨j, rfl, hw⟩ := hmw v hv
      have hne : j ≠ i := by
        rintro rfl
        exact hph hw
      refine ⟨j, rfl, ?_⟩
      show Function.update s.phase i Phase.busy j = Phase.waiting
      rw [Function.update_noteq hne]
      exact hw
    · intro j hj
      rw [hfl']
      have hne : j ≠ i := by
        rintro rfl
        have : Function.update s.phase j Phase.busy j = Phase.waiting := hj
        rw [Function.update_same] at this
        exact Phase.noConfusion this
      have hjw : s.phase j = Phase.waiting := by
        have : Function.update s.phase i Phase.busy j = Phase.waiting := hj
        rwa [Function.update_noteq hne] at this
      exact hwm j hjw

theorem sysInv_reach {s : Sys} (h : Reach s) : SysInv s := by
  induction h with
  | refl => exact sysInv_init
  | tail hab hbc ih => exact sysInv_step ih hbc

/-! ### Helper lemmas about the worker-side functions -/

theorem send_response_base (c r z : Frame) (rid : String) (tc : TraceInfo) (now : Int)
    (em : Option String) (st : Status) (rd : List Nat) (rdl : Nat) :
    (send_response c r z rid tc now em st rd rdl).client_id = c ∧
    (send_response c r z rid tc now em st rd rdl).request_id = r ∧
    (send_response c r z rid tc now em st rd rdl).zero = z ∧
    (send_response c r z rid tc now em st rd rdl).response.rpc_id = some rid ∧
    (send_response c r z rid tc now em st rd rdl).response.has_response_data = true ∧
    (send_response c r z rid tc now em st rd rdl).response.response_status = st ∧
    (send_response c r z rid tc now em st rd rdl).response.error_message = em ∧
    (send_response c r z rid tc now em st rd rdl).response.response_data = ⟨rdl, rd⟩ := by
  unfold send_response crpc_attach_trace
  split <;> exact ⟨rfl, rfl, rfl, rfl, rfl, rfl, rfl, rfl⟩

theorem send_response_traceinfo (c r z : Frame) (rid : String) (tc : TraceInfo) (now : Int)
    (em : Option String) (st : Status) (rd : List Nat) (rdl : Nat) :
    (send_response c r z rid tc now em st rd rdl).response.traceinfo
      = if tc.received_time = 0 then none else some { tc with replied_time := now } := by
  unfold send_response crpc_attach_trace
  split
  case isTrue h => simp [h]
  case isFalse h => simp [h]

theorem crpc_initialize_request_not4 (unpack : Frame → Option RPCRequest) :
    ∀ (msg : Msg), msg.length ≠ 4 → crpc_initialize_request unpack msg = none := by
  intro msg h
  match msg with
  | [] => rfl
  | [a] => rfl
  | [a, b] => rfl
  | [a, b, c] => rfl
  | [a, b, c, d] => exact absurd rfl h
  | a :: b :: c :: d :: e :: rest => rfl

theorem scanIdentityAux_notin :
    ∀ (l : List Frame) (wid : Frame) (k : Nat), wid ∉ l → scanIdentityAux l wid k = 0
  | [], _, _, _ => rfl
  | f :: rest, wid, k, h => by
    have hne : ¬ f = wid := fun he => h (he ▸ List.mem_cons_self f rest)
    simp only [scanIdentityAux, if_neg hne]
    exact scanIdentityAux_notin rest wid (k + 1) (fun hm => h (List.mem_cons_of_mem f hm))

theorem scanIdentity_notin (wid : Frame) (h : wid ∉ identities) :
    scanIdentity identities wid = 0 :=
  scanIdentityAux_notin identities wid 0 h

/-- The canonical form of the worker step on a successfully decoded request:
some response is sent with the trace context and cache produced by
`crpc_initialize_trace`. -/
theorem crpc_server_thread_step_form (unpack : Frame → Option RPCRequest)
    (dispatch : String → String → Option (CrpcContext → CrpcContext))
    (host : String) (cache : Option String) (t1 t2 : Int) (c r z d : Frame)
    (req : RPCRequest) (hu : unpack d = some req) :
    ∃ em st rd rdl,
      crpc_server_thread_step unpack dispatch host cache t1 t2 [c, r, z, d]
        = some (some (send_response c r z req.rpc_id
            (crpc_initialize_trace host cache t1 req).2.1 t2 em st rd rdl),
          (crpc_initialize_trace host cache t1 req).1) := by
  simp only [crpc_server_thread_step, crpc_initialize_request, hu]
  rcases hd : dispatch req.srvc req.procedure with - | handler
  · exact ⟨some "no handler could be found", Status.status_not_found, [], 0, rfl⟩
  · by_cases hok : (handler (workerCtx0 req)).ok = false
    · refine ⟨(handler (workerCtx0 req)).error_string, Status.status_not_ok, [], 0, ?_⟩
      simp only [hok, if_pos]
    · refine ⟨some "", Status.status_ok, (handler (workerCtx0 req)).response,
        (handler (workerCtx0 req)).response_len, ?_⟩
      simp only [if_neg hok]

/-! ### Concrete states and inputs used by witnesses -/

/-- A full int ring of capacity 2. -/
def ringI2 : IntRing := ⟨fun _ => 5, 0, 2, 2⟩

/-- A full message ring of capacity 2. -/
def ringM2 : MsgRing := ⟨fun _ => some [], 0, 2, 2⟩

/-- A full overflow queue (length = request_queue_length). -/
def msgRingFull : MsgRing :=
  ⟨fun _ => some [[]], 0, request_queue_length, request_queue_length⟩

/-- Broker state with no free worker and a full overflow queue. -/
def brokerFull : BrokerState := ⟨ring0I, msgRingFull⟩

/-- Broker state whose free queue contains exactly worker index 0. -/
def brokerOneFree : BrokerState := ⟨⟨fun _ => 0, 0, 1, 1⟩, ring0M⟩

/-- An unpack function that always fails (payload never parses). -/
def unpack0 : Frame → Option RPCRequest := fun _ => none

/-- A dispatch function that never finds a handler. -/
def dispatch0 : String → String → Option (CrpcContext → CrpcContext) := fun _ _ => none

/-- A concrete decoded request ("echo"."any", data "hello", no trace). -/
def reqEcho : RPCRequest :=
  ⟨"id1", "echo", "any", ⟨5, [104, 101, 108, 108, 111]⟩, false, 0, none, false, false⟩

/-- The same request with want_trace set. -/
def reqTrace : RPCRequest := { reqEcho with has_want_trace := true, want_trace := true }

/-- An unpack function that always yields `reqEcho`. -/
def unpackEcho : Frame → Option RPCRequest := fun _ => some reqEcho

/-- An unpack function that always yields `reqTrace`. -/
def unpackTrace : Frame → Option RPCRequest := fun _ => some reqTrace

/-! ### Claim theorems -/

/-- Claim C10: the ring-buffer operations are atomic on failure.  Enqueue on
a full queue returns false and leaves the state (base cells, head, tail,
length) unchanged; dequeue on an empty queue returns the sentinel
(-1 resp. NULL) and leaves the state unchanged.  The returned state is
literally the input record, so every component is unchanged. -/
theorem ring_fail_atomic (capI capM : Nat) (x : Int) (m : Option Msg)
    (s : IntRing) (t : MsgRing) :
    (capI ≤ s.len → enqueue_int x capI s = (false, s)) ∧
    (s.len = 0 → dequeue_int capI s = (-1, s)) ∧
    (capM ≤ t.len → enqueue_zmsg_t m capM t = (false, t)) ∧
    (t.len = 0 → dequeue_zmsg_t capM t = (none, t)) :=
  ⟨enqueue_int_of_full x capI s, dequeue_int_of_empty capI s,
   enqueue_zmsg_of_full m capM t, dequeue_zmsg_of_empty capM t⟩

/-- Witness for C10 at capacity 2 on concrete full/empty rings. -/
theorem ring_fail_atomic_witness :
    enqueue_int 7 2 ringI2 = (false, ringI2) ∧ dequeue_int 2 ring0I = (-1, ring0I) ∧
    enqueue_zmsg_t (some [[4]]) 2 ringM2 = (false, ringM2) ∧
    dequeue_zmsg_t 2 ring0M = (none, ring0M) :=
  ⟨(ring_fail_atomic 2 2 7 (some [[4]]) ringI2 ringM2).1 (by decide),
   (ring_fail_atomic 2 2 7 (some [[4]]) ring0I ring0M).2.1 rfl,
   (ring_fail_atomic 2 2 7 (some [[4]]) ringI2 ringM2).2.2.1 (by decide),
   (ring_fail_atomic 2 2 7 (some [[4]]) ring0I ring0M).2.2.2 rfl⟩

/-- Claim C1 (evidence for the code_bug): when `free_workers_q` is empty and
`queued_messages` is full, the frontend handler does NOT reply with
STATUS_OVERLOADED_RETRY — it falls through to the dispatch step with
`id = NULL`, where `zmsg_addstr(be_msg, NULL)` aborts (modelled `none`).
No reply of any kind is produced; in particular no OVERLOADED_RETRY
response exists anywhere in `crpc_server_main`. -/
theorem broker_overload_no_reply (s : BrokerState) (msg : Msg)
    (hf : s.free_workers_q.len = 0) (hq : s.queued_messages.len = request_queue_length) :
    frontStep s msg = none := by
  simp [frontStep, hf, hq]

/-- Witness for C1 on a concrete saturated broker state. -/
theorem broker_overload_no_reply_witness : frontStep brokerFull [[]] = none :=
  broker_overload_no_reply brokerFull [[]] rfl rfl

/-- Claim C4 (evidence for the code_bug): on a 4-frame envelope whose payload
does not parse, `crpc_initialize_request` still returns true (with
`request = NULL`), and the worker loop then dereferences the NULL
`request->request` inside `crpc_initialize_trace` — undefined behaviour
(modelled `none`).  No STATUS_SERVER_ERROR response is produced. -/
theorem worker_unparsable_payload_crash (unpack : Frame → Option RPCRequest)
    (dispatch : String → String → Option (CrpcContext → CrpcContext))
    (host : String) (cache : Option String) (t1 t2 : Int) (c r z d : Frame)
    (hu : unpack d = none) :
    crpc_initialize_request unpack [c, r, z, d] = some ⟨c, r, z, d, none⟩ ∧
    crpc_server_thread_step unpack dispatch host cache t1 t2 [c, r, z, d] = none := by
  constructor
  · simp [crpc_initialize_request, hu]
  · simp [crpc_server_thread_step, crpc_initialize_request, hu]

/-- Witness for C4 on a concrete unparsable payload. -/
theorem worker_unparsable_payload_crash_witness :
    crpc_initialize_request unpack0 [[1], [2], [], [3]] = some ⟨[1], [2], [], [3], none⟩ ∧
    crpc_server_thread_step unpack0 dispatch0 "h" none 1 2 [[1], [2], [], [3]] = none :=
  worker_unparsable_payload_crash unpack0 dispatch0 "h" none 1 2 [1] [2] [] [3] rfl

/-- Claim C3: for every 4-frame envelope whose payload decodes, the worker
sends exactly one response, determined by the three-way case analysis on the
dispatch result and the handler's ok flag: no handler → STATUS_NOT_FOUND with
"no handler could be found" and empty data; ok=false → STATUS_NOT_OK with
the handler's error string and empty data; ok=true → STATUS_OK with empty
error and the handler's response bytes of length response_len. -/
theorem worker_response_cases (unpack : Frame → Option RPCRequest)
    (dispatch : String → String → Option (CrpcContext → CrpcContext))
    (host : String) (cache : Option String) (t1 t2 : Int) (c r z d : Frame)
    (req : RPCRequest) (hu : unpack d = some req) :
    ∃ sent cache',
      crpc_server_thread_step unpack dispatch host cache t1 t2 [c, r, z, d]
        = some (some sent, cache') ∧
      sent.client_id = c ∧ sent.request_id = r ∧ sent.zero = z ∧
      sent.response.rpc_id = some req.rpc_id ∧
      sent.response.has_response_data = true ∧
      (dispatch req.srvc req.procedure = none →
        sent.response.response_status = Status.status_not_found ∧
        sent.response.error_message = some "no handler could be found" ∧
        sent.response.response_data = ⟨0, []⟩) ∧
      (∀ handler, dispatch req.srvc req.procedure = some handler →
        ((handler (workerCtx0 req)).ok = false →
          sent.response.response_status = Status.status_not_ok ∧
          sent.response.error_message = (handler (workerCtx0 req)).error_string ∧
          sent.response.response_data = ⟨0, []⟩) ∧
        ((handler (workerCtx0 req)).ok = true →
          sent.response.response_status = Status.status_ok ∧
          sent.response.error_message = some "" ∧
          sent.response.response_data
            = ⟨(handler (workerCtx0 req)).response_len,
               (handler (workerCtx0 req)).response⟩)) := by
  simp only [crpc_server_thread_step, crpc_initialize_request, hu]
  rcases hd : dispatch req.srvc req.procedure with - | handler
  · refine ⟨_, _, rfl, ?_⟩
    obtain ⟨hc, hr, hz, hrid, hhas, hst, hem, hdata⟩ := send_response_base c r z req.rpc_id
      (crpc_initialize_trace host cache t1 req).2.1 t2 (some "no handler could be found")
      Status.status_not_found [] 0
    exact ⟨hc, hr, hz, hrid, hhas, fun _ => ⟨hst, hem, hdata⟩,
      fun handler habs => absurd habs (by simp [hd])⟩
  · by_cases hok : (handler (workerCtx0 req)).ok = false
    · simp only [hok, if_pos]
      refine ⟨_, _, rfl, ?_⟩
      obtain ⟨hc, hr, hz, hrid, hhas, hst, hem, hdata⟩ := send_response_base c r z req.rpc_id
        (crpc_initialize_trace host cache t1 req).2.1 t2
        (handler (workerCtx0 req)).error_string Status.status_not_ok [] 0
      refine ⟨hc, hr, hz, hrid, hhas, fun habs => absurd habs (by simp [hd]), ?_⟩
      intro handler2 hh2
      have hh : handler2 = handler := (Option.some.inj hh2).symm
      subst hh
      exact ⟨fun _ => ⟨hst, hem, hdata⟩, fun hko => absurd hok (by simp [hko])⟩
    · simp only [if_neg hok]
      refine ⟨_, _, rfl, ?_⟩
      obtain ⟨hc, hr, hz, hrid, hhas, hst, hem, hdata⟩ := send_response_base c r z req.rpc_id
        (crpc_initialize_trace host cache t1 req).2.1 t2 (some "") Status.status_ok
        (handler (workerCtx0 req)).response (handler (workerCtx0 req)).response_len
      refine ⟨hc, hr, hz, hrid, hhas, fun habs => absurd habs (by simp [hd]), ?_⟩
      intro handler2 hh2
      have hh : handler2 = handler := (Option.some.inj hh2).symm
      subst hh
      exact ⟨fun hko => absurd hko hok, fun _ => ⟨hst, hem, hdata⟩⟩

/-- Witness for C3: a request dispatched to no handler yields exactly one
response with status NOT_FOUND. -/
theorem worker_response_cases_witness :
    (crpc_server_thread_step unpackEcho dispatch0 "h" none 1 2 [[1], [2], [], [3]]).isSome
      = true ∧
    ((crpc_server_thread_step unpackEcho dispatch0 "h" none 1 2 [[1], [2], [], [3]]).map
        (fun res => res.1.map (fun sent => sent.response.response_status)))
      = some (some Status.status_not_found) := by
  obtain ⟨sent, cache2, heq, -, -, -, -, -, hnf, -⟩ :=
    worker_response_cases unpackEcho dispatch0 "h" none 1 2 [1] [2] [] [3] reqEcho rfl
  obtain ⟨hst, -, -⟩ := hnf rfl
  rw [heq]
  exact ⟨rfl, by simp [hst]⟩

/-- Claim C8: the response carries traceinfo iff the request's want_trace
flag is true; when present, endpoint_name is exactly "srvc.procedure",
machine_name is the cached process hostname (computed on the first traced
request and reused afterwards), and received_time / replied_time are the two
captured timestamps. -/
theorem worker_trace_iff (unpack : Frame → Option RPCRequest)
    (dispatch : String → String → Option (CrpcContext → CrpcContext))
    (host : String) (cache : Option String) (t1 t2 : Int) (c r z d : Frame)
    (req : RPCRequest) (hu : unpack d = some req) (ht1 : 0 < t1) :
    ∃ sent cache',
      crpc_server_thread_step unpack dispatch host cache t1 t2 [c, r, z, d]
        = some (some sent, cache') ∧
      (sent.response.traceinfo.isSome ↔ req.want_trace = true) ∧
      (∀ ti, sent.response.traceinfo = some ti →
        ti.endpoint_name = some (req.srvc ++ "." ++ req.procedure) ∧
        ti.machine_name = some (cache.getD host) ∧
        ti.received_time = t1 ∧ ti.replied_time = t2) ∧
      (req.want_trace = true → cache' = some (cache.getD host)) ∧
      (req.want_trace = false → cache' = cache) := by
  obtain ⟨em, st, rd, rdl, heq⟩ :=
    crpc_server_thread_step_form unpack dispatch host cache t1 t2 c r z d req hu
  cases hw : req.want_trace with
  | false =>
    have htc0 : (crpc_initialize_trace host cache t1 req).2.1 = traceInfoInit := by
      simp [crpc_initialize_trace, hw]
    have hcache0 : (crpc_initialize_trace host cache t1 req).1 = cache := by
      simp [crpc_initialize_trace, hw]
    refine ⟨_, _, heq, ?_, ?_, ?_, ?_⟩
    · rw [send_response_traceinfo, htc0]
      simp [traceInfoInit]
    · intro ti hti
      rw [send_response_traceinfo, htc0] at hti
      simp [traceInfoInit] at hti
    · intro habs
      exact Bool.noConfusion habs
    · intro _
      exact hcache0
  | true =>
    have ht1ne : ¬ (t1 = 0) := by omega
    have htc : (crpc_initialize_trace host cache t1 req).2.1
        = { traceInfoInit with
              machine_name := some (cache.getD host),
              endpoint_name := some (req.srvc ++ "." ++ req.procedure),
              received_time := t1 } := by
      simp [crpc_initialize_trace, hw]
    have hcache : (crpc_initialize_trace host cache t1 req).1 = some (cache.getD host) := by
      simp [crpc_initialize_trace, hw]
    refine ⟨_, _, heq, ?_, ?_, ?_, ?_⟩
    · rw [send_response_traceinfo, htc]
      simp [traceInfoInit, ht1ne]
    · intro ti hti
      rw [send_response_traceinfo, htc] at hti
      simp only [traceInfoInit, ht1ne, ite_false, Option.some.injEq] at hti
      rcases hti with rfl
      exact ⟨rfl, rfl, rfl, rfl⟩
    · intro _
      exact hcache
    · intro habs
      exact Bool.noConfusion habs

/-- Witness for C8: a traced request produces a response whose traceinfo is
present and whose machine-name cache gets filled with the hostname. -/
theorem worker_trace_iff_witness :
    ((crpc_server_thread_step unpackTrace dispatch0 "myhost" none 1 2 [[1], [2], [], [3]]).map
        (fun res => res.2)) = some (some "myhost") ∧
    ((crpc_server_thread_step unpackTrace dispatch0 "myhost" none 1 2 [[1], [2], [], [3]]).map
        (fun res => res.1.map (fun sent => sent.response.traceinfo.isSome)))
      = some (some true) := by
  obtain ⟨sent, cache2, heq, hiff, -, hct, -⟩ :=
    worker_trace_iff unpackTrace dispatch0 "myhost" none 1 2 [1] [2] [] [3] reqTrace rfl
      (by decide)
  have hc : cache2 = some "myhost" := hct rfl
  have hs : sent.response.traceinfo.isSome = true := hiff.mpr rfl
  rw [heq]
  exact ⟨by simp [hc], by simp [hs]⟩

/-- Claim C9: a backend envelope whose identity frame matches no worker
leaves the scanned index at 0, so the broker enqueues worker index 0 into
the free queue; concretely, with worker 0 already free this makes index 0
appear twice. -/
theorem backend_unknown_identity (wid : Frame) (s : BrokerState) (payload : Msg)
    (hni : wid ∉ identities) (hq : ¬ 0 < s.queued_messages.len) :
    scanIdentity identities wid = 0 ∧
    backStep s (wid :: ([] : Frame) :: payload)
      = some ({ s with free_workers_q :=
          (enqueue_int ((0 : Nat) : Int) number_of_workers s.free_workers_q).2 },
        payload, BackOut.freed 0) ∧
    (backStep brokerOneFree ([42] :: ([] : Frame) :: ([] : Msg))).map
        (fun res => listOfI number_of_workers res.1.free_workers_q) = some [0, 0] := by
  have hscan := scanIdentity_notin wid hni
  refine ⟨hscan, ?_, by decide⟩
  simp only [backStep, if_neg hq, hscan, List.tail_cons]

/-- Witness for C9 with the unknown identity frame [42]. -/
theorem backend_unknown_identity_witness :
    scanIdentity identities [42] = 0 ∧
    backStep broker0 ([42] :: ([] : Frame) :: ([] : Msg))
      = some ({ broker0 with free_workers_q :=
          (enqueue_int ((0 : Nat) : Int) number_of_workers broker0.free_workers_q).2 },
        ([] : Msg), BackOut.freed 0) ∧
    (backStep brokerOneFree ([42] :: ([] : Frame) :: ([] : Msg))).map
        (fun res => listOfI number_of_workers res.1.free_workers_q) = some [0, 0] :=
  backend_unknown_identity [42] broker0 [] (by decide) (by decide)

/-- Counterexample to claim C2 as stated: on worker 0's READY envelope the
broker's backend handler hands the four READY payload frames (ending in
"__ready__") to `zmsg_send(..., front_router)`: the READY envelope IS
forwarded to the frontend socket, not consumed.  (It fails to reach any
client only because "BOGUS_CLIENT_ID" matches no frontend peer under
mandatory routing.) -/
theorem ready_forwarded_counterexample :
    (backStep broker0 (workerIdentity ⟨0, by decide⟩ :: ([] : Frame) :: readyPayload)).map
        (fun res => res.2.1) = some readyPayload ∧
    readyPayload ≠ ([] : Msg) := ⟨by decide, by decide⟩

/-- Claim C2 amended: the broker's backend handler treats a READY envelope
like any response envelope: it forwards the READY payload frames to the
frontend socket, and (the overflow queue being empty) marks the worker free
by appending its index to the free queue. -/
theorem ready_forward_and_free (s : BrokerState) (i : Fin number_of_workers)
    (hq : ¬ 0 < s.queued_messages.len)
    (hfi : RingInvI number_of_workers s.free_workers_q)
    (hlen : s.free_workers_q.len < number_of_workers) :
    backStep s (workerIdentity i :: ([] : Frame) :: readyPayload)
      = some ({ s with free_workers_q :=
          (enqueue_int ((i.val : Nat) : Int) number_of_workers s.free_workers_q).2 },
        readyPayload, BackOut.freed i.val) ∧
    listOfI number_of_workers
        (enqueue_int ((i.val : Nat) : Int) number_of_workers s.free_workers_q).2
      = listOfI number_of_workers s.free_workers_q ++ [((i.val : Nat) : Int)] := by
  constructor
  · simp only [backStep, if_neg hq, scan_workerIdentity, List.tail_cons]
  · exact (enqueue_int_spec _ _ _ (by decide) hfi hlen).2.2.1

/-- Witness for the amended C2 at worker 1 from the startup state. -/
theorem ready_forward_and_free_witness :
    backStep broker0 (workerIdentity ⟨1, by decide⟩ :: ([] : Frame) :: readyPayload)
      = some ({ broker0 with free_workers_q :=
          (enqueue_int ((1 : Nat) : Int) number_of_workers broker0.free_workers_q).2 },
        readyPayload, BackOut.freed 1) ∧
    listOfI number_of_workers
        (enqueue_int ((1 : Nat) : Int) number_of_workers broker0.free_workers_q).2
      = listOfI number_of_workers broker0.free_workers_q ++ [((1 : Nat) : Int)] :=
  ready_forward_and_free broker0 ⟨1, by decide⟩ (by decide)
    (ring0I_inv number_of_workers (by decide)) (by decide)

/-- Counterexample to claim C5 as stated: a 5-frame frontend envelope with a
free worker available is NOT discarded — the broker dispatches its first
four frames on the backend socket (and the free queue changes). -/
theorem five_frame_dispatched_counterexample :
    (frontStep brokerOneFree [[1], [2], [], [3], [4]]).map (fun res => res.2)
      = some (FrontOut.dispatched 0 [strBytes "0000", [], [1], [2], [], [3]]) := by
  decide

/-- Claim C5 amended: the broker performs no frame-count check.  With a free
worker it dispatches the first four frames of any frontend envelope
(whatever its frame count); with no free worker and room it enqueues the
whole envelope; the 4-frame check that logs and discards without a response
lives in the worker (`crpc_initialize_request`), and a worker-side discard
leaves the broker queues untouched (the worker never touches them). -/
theorem broker_no_frame_count_check :
    (∀ (s : BrokerState) (f1 f2 f3 f4 : Frame) (rest : Msg),
      0 < s.free_workers_q.len →
      0 ≤ (dequeue_int number_of_workers s.free_workers_q).1 →
      (dequeue_int number_of_workers s.free_workers_q).1.toNat < number_of_workers →
      frontStep s (f1 :: f2 :: f3 :: f4 :: rest)
        = some ({ s with
              free_workers_q := (dequeue_int number_of_workers s.free_workers_q).2 },
            FrontOut.dispatched (dequeue_int number_of_workers s.free_workers_q).1.toNat
              [identities.getD (dequeue_int number_of_workers s.free_workers_q).1.toNat [],
               [], f1, f2, f3, f4])) ∧
    (∀ (s : BrokerState) (msg : Msg),
      ¬ 0 < s.free_workers_q.len → s.queued_messages.len < request_queue_length →
      frontStep s msg
        = some ({ s with queued_messages :=
            (enqueue_zmsg_t (some msg) request_queue_length s.queued_messages).2 },
          FrontOut.enqueued)) ∧
    (∀ (unpack : Frame → Option RPCRequest)
       (dispatch : String → String → Option (CrpcContext → CrpcContext))
       (host : String) (cache : Option String) (t1 t2 : Int) (msg : Msg),
      msg.length ≠ 4 →
      crpc_server_thread_step unpack dispatch host cache t1 t2 msg = some (none, cache)) := by
  refine ⟨?_, ?_, ?_⟩
  · intro s f1 f2 f3 f4 rest hfree hge hlt
    unfold frontStep
    rw [if_pos hfree, if_pos (And.intro hge hlt)]
  · intro s msg hnfree hroom
    unfold frontStep
    rw [if_neg hnfree, if_pos hroom]
  · intro unpack dispatch host cache t1 t2 msg hlen
    simp [crpc_server_thread_step, crpc_initialize_request_not4 unpack msg hlen]

/-- Witness for the amended C5: a 5-frame envelope dispatched, any envelope
queued when no worker is free, and a 3-frame envelope discarded by the
worker without a response. -/
theorem broker_no_frame_count_check_witness :
    frontStep brokerOneFree [[1], [2], [], [3], [4]]
      = some ({ brokerOneFree with
            free_workers_q := (dequeue_int number_of_workers brokerOneFree.free_workers_q).2 },
          FrontOut.dispatched (dequeue_int number_of_workers brokerOneFree.free_workers_q).1.toNat
            [identities.getD
              (dequeue_int number_of_workers brokerOneFree.free_workers_q).1.toNat [],
             [], [1], [2], [], [3]]) ∧
    frontStep broker0 [[9]]
      = some ({ broker0 with queued_messages :=
            (enqueue_zmsg_t (some [[9]]) request_queue_length broker0.queued_messages).2 },
          FrontOut.enqueued) ∧
    crpc_server_thread_step unpack0 dispatch0 "h" none 1 2 [[1], [2], []] = some (none, none) :=
  ⟨broker_no_frame_count_check.1 brokerOneFree [1] [2] [] [3] [[4]]
      (by decide) (by decide) (by decide),
   broker_no_frame_count_check.2.1 broker0 [[9]] (by decide) (by decide),
   broker_no_frame_count_check.2.2 unpack0 dispatch0 "h" none 1 2 [[1], [2], []] (by decide)⟩

/-- Claim C6: each ring buffer implements a bounded FIFO queue.  From the
empty state, after any operation sequence: enqueue returns false exactly
when the length equals the capacity, dequeue returns the sentinel
(-1 / NULL) exactly when the length is 0 (for sequences that only enqueue
non-sentinel elements, as the broker does), the ring's contents equal the
abstract bounded FIFO run, dequeue returns elements in enqueue order, and
head/tail stay inside the wrap-around bounds. -/
theorem ring_bounded_fifo (capN capQ : Nat) (hcN : 0 < capN) (hcQ : 0 < capQ)
    (ops : List QOpI) (hops : ∀ op ∈ ops, opNonneg op = true)
    (opsM : List QOpM) (hopsM : ∀ op ∈ opsM, opNonnull op = true) :
    ((∀ x : Int, ((enqueue_int x capN (runOpsI capN ops ring0I)).1 = false
        ↔ (runOpsI capN ops ring0I).len = capN)) ∧
     ((dequeue_int capN (runOpsI capN ops ring0I)).1 = -1
        ↔ (runOpsI capN ops ring0I).len = 0) ∧
     listOfI capN (runOpsI capN ops ring0I) = fifoSpecI capN ops [] ∧
     (0 < (runOpsI capN ops ring0I).len →
       (dequeue_int capN (runOpsI capN ops ring0I)).1
           :: listOfI capN (dequeue_int capN (runOpsI capN ops ring0I)).2
         = fifoSpecI capN ops []) ∧
     (runOpsI capN ops ring0I).head < capN ∧ (runOpsI capN ops ring0I).tail ≤ capN) ∧
    ((∀ m : Option Msg, ((enqueue_zmsg_t m capQ (runOpsM capQ opsM ring0M)).1 = false
        ↔ (runOpsM capQ opsM ring0M).len = capQ)) ∧
     ((dequeue_zmsg_t capQ (runOpsM capQ opsM ring0M)).1 = none
        ↔ (runOpsM capQ opsM ring0M).len = 0) ∧
     listOfM capQ (runOpsM capQ opsM ring0M) = fifoSpecM capQ opsM [] ∧
     (0 < (runOpsM capQ opsM ring0M).len →
       (dequeue_zmsg_t capQ (runOpsM capQ opsM ring0M)).1
           :: listOfM capQ (dequeue_zmsg_t capQ (runOpsM capQ opsM ring0M)).2
         = fifoSpecM capQ opsM []) ∧
     (runOpsM capQ opsM ring0M).head < capQ ∧ (runOpsM capQ opsM ring0M).tail ≤ capQ) := by
  obtain ⟨hinv, hlist⟩ := runOpsI_spec capN hcN ops ring0I (ring0I_inv capN hcN)
  obtain ⟨hinvM, hlistM⟩ := runOpsM_spec capQ hcQ opsM ring0M (ring0M_inv capQ hcQ)
  have hlist' : listOfI capN (runOpsI capN ops ring0I) = fifoSpecI capN ops [] := hlist
  have hlistM' : listOfM capQ (runOpsM capQ opsM ring0M) = fifoSpecM capQ opsM [] := hlistM
  have hval : ∀ v ∈ listOfI capN (runOpsI capN ops ring0I), 0 ≤ v :=
    runOpsI_nonneg capN hcN ops ring0I (ring0I_inv capN hcN) hops
      (fun v hv => absurd hv (List.not_mem_nil v))
  have hvalM : ∀ v ∈ listOfM capQ (runOpsM capQ opsM ring0M), v.isSome :=
    runOpsM_nonnull capQ hcQ opsM ring0M (ring0M_inv capQ hcQ) hopsM
      (fun v hv => absurd hv (List.not_mem_nil v))
  constructor
  · refine ⟨?_, ?_, hlist', ?_, hinv.1, hinv.2.1⟩
    · intro x
      by_cases hfull : capN ≤ (runOpsI capN ops ring0I).len
      · constructor
        · intro _
          have hle := hinv.2.2.1
          omega
        · intro _
          rw [enqueue_int_of_full x capN _ hfull]
      · have hlt : (runOpsI capN ops ring0I).len < capN := by omega
        obtain ⟨htrue, -, -, -⟩ := enqueue_int_spec x capN _ hcN hinv hlt
        constructor
        · intro hfalse
          rw [htrue] at hfalse
          exact Bool.noConfusion hfalse
        · intro hlen
          exact absurd hlen (by omega)
    · constructor
      · intro hm1
        by_contra hne
        have hpos : 0 < (runOpsI capN ops ring0I).len := Nat.pos_of_ne_zero hne
        obtain ⟨-, hl, -⟩ := dequeue_int_spec capN _ hcN hinv hpos
        have hmem : (dequeue_int capN (runOpsI capN ops ring0I)).1
            ∈ listOfI capN (runOpsI capN ops ring0I) := by rw [hl]; simp
        have hge := hval _ hmem
        rw [hm1] at hge
        omega
      · intro h0
        rw [dequeue_int_of_empty capN _ h0]
    · intro hpos
      obtain ⟨-, hl, -⟩ := dequeue_int_spec capN _ hcN hinv hpos
      rw [← hlist']
      exact hl.symm
  · refine ⟨?_, ?_, hlistM', ?_, hinvM.1, hinvM.2.1⟩
    · intro m
      by_cases hfull : capQ ≤ (runOpsM capQ opsM ring0M).len
      · constructor
        · intro _
          have hle := hinvM.2.2.1
          omega
        · intro _
          rw [enqueue_zmsg_of_full m capQ _ hfull]
      · have hlt : (runOpsM capQ opsM ring0M).len < capQ := by omega
        obtain ⟨htrue, -, -, -⟩ := enqueue_zmsg_spec m capQ _ hcQ hinvM hlt
        constructor
        · intro hfalse
          rw [htrue] at hfalse
          exact Bool.noConfusion hfalse
        · intro hlen
          exact absurd hlen (by omega)
    · constructor
      · intro hm1
        by_contra hne
        have hpos : 0 < (runOpsM capQ opsM ring0M).len := Nat.pos_of_ne_zero hne
        obtain ⟨-, hl, -⟩ := dequeue_zmsg_spec capQ _ hcQ hinvM hpos
        have hmem : (dequeue_zmsg_t capQ (runOpsM capQ opsM ring0M)).1
            ∈ listOfM capQ (runOpsM capQ opsM ring0M) := by rw [hl]; simp
        have hsome := hvalM _ hmem
        rw [hm1] at hsome
        exact Bool.noConfusion hsome
      · intro h0
        rw [dequeue_zmsg_of_empty capQ _ h0]
    · intro hpos
      obtain ⟨-, hl, -⟩ := dequeue_zmsg_spec capQ _ hcQ hinvM hpos
      rw [← hlistM']
      exact hl.symm

/-- The int-ring operation sequence used by the C6 witness (fills the ring,
hits the full case, dequeues, wraps around). -/
def opsWI : List QOpI := [QOpI.enq 3, QOpI.enq 4, QOpI.enq 5, QOpI.deq, QOpI.enq 6]

/-- The message-ring operation sequence used by the C6 witness. -/
def opsWM : List QOpM := [QOpM.enq (some [[1]]), QOpM.deq, QOpM.enq (some [])]

/-- Witness for C6 at capacity 2 on sequences that exercise full, empty and
wrap-around behaviour. -/
theorem ring_bounded_fifo_witness :
    ((enqueue_int 9 2 (runOpsI 2 opsWI ring0I)).1 = false
      ↔ (runOpsI 2 opsWI ring0I).len = 2) ∧
    ((dequeue_int 2 (runOpsI 2 opsWI ring0I)).1 = -1
      ↔ (runOpsI 2 opsWI ring0I).len = 0) ∧
    listOfI 2 (runOpsI 2 opsWI ring0I) = fifoSpecI 2 opsWI [] ∧
    (dequeue_int 2 (runOpsI 2 opsWI ring0I)).1
        :: listOfI 2 (dequeue_int 2 (runOpsI 2 opsWI ring0I)).2
      = fifoSpecI 2 opsWI [] ∧
    (runOpsI 2 opsWI ring0I).head < 2 ∧ (runOpsI 2 opsWI ring0I).tail ≤ 2 ∧
    ((enqueue_zmsg_t (some [[7]]) 2 (runOpsM 2 opsWM ring0M)).1 = false
      ↔ (runOpsM 2 opsWM ring0M).len = 2) ∧
    ((dequeue_zmsg_t 2 (runOpsM 2 opsWM ring0M)).1 = none
      ↔ (runOpsM 2 opsWM ring0M).len = 0) ∧
    listOfM 2 (runOpsM 2 opsWM ring0M) = fifoSpecM 2 opsWM [] ∧
    (dequeue_zmsg_t 2 (runOpsM 2 opsWM ring0M)).1
        :: listOfM 2 (dequeue_zmsg_t 2 (runOpsM 2 opsWM ring0M)).2
      = fifoSpecM 2 opsWM [] ∧
    (runOpsM 2 opsWM ring0M).head < 2 ∧ (runOpsM 2 opsWM ring0M).tail ≤ 2 := by
  obtain ⟨⟨he, hd, hl, hf, hh, ht⟩, hm⟩ :=
    ring_bounded_fifo 2 2 (by decide) (by decide) opsWI (by decide) opsWM (by decide)
  obtain ⟨hem, hdm, hlm, hfm, hhm, htm⟩ := hm
  exact ⟨he 9, hd, hl, hf (by decide), hh, ht,
    hem (some [[7]]), hdm, hlm, hfm (by decide), hhm, htm⟩

/-- Claim C7: in every reachable broker state in which no worker is still
starting (all N initial READYs processed), each worker index appears at most
once in `free_workers_q`, every entry of the free queue is a worker index,
and the free-queue length plus the number of busy (in-flight) workers
equals N. -/
theorem scheduler_invariant (s : Sys) (hr : Reach s)
    (hready : ∀ i : Fin number_of_workers, s.phase i ≠ Phase.starting) :
    (freeListS s).Nodup ∧
    (∀ v ∈ freeListS s, ∃ i : Fin number_of_workers, v = (i.val : Int)) ∧
    s.broker.free_workers_q.len
      + (Finset.univ.filter fun i : Fin number_of_workers =>
          s.phase i = Phase.busy).card = number_of_workers := by
  have hinv := sysInv_reach hr
  obtain ⟨-, -, hnd, hmw, -⟩ := hinv
  refine ⟨hnd, fun v hv => ((hmw v hv).imp fun i hi => hi.1), ?_⟩
  rw [freeLen_eq_waitingCard s (sysInv_reach hr)]
  have hpart : ∀ i : Fin number_of_workers,
      s.phase i = Phase.waiting ↔ ¬ s.phase i = Phase.busy := by
    intro i
    cases h3 : s.phase i
    · exact absurd h3 (hready i)
    · simp
    · simp
  have hfe : (Finset.univ.filter fun i : Fin number_of_workers =>
        s.phase i = Phase.waiting)
      = (Finset.univ.filter fun i : Fin number_of_workers =>
          ¬ s.phase i = Phase.busy) :=
    Finset.filter_congr fun i _ => hpart i
  rw [hfe, Nat.add_comm, Finset.filter_card_add_filter_neg_card_eq_card,
    Finset.card_univ, Fintype.card_fin]

/-- The broker-side READY envelope of worker `i` as received on the backend
router (identity frame, REQ empty delimiter, then the four READY frames). -/
def readyMsgFor (i : Fin number_of_workers) : Msg :=
  workerIdentity i :: ([] : Frame) :: readyPayload

/-- The broker state after processing one backend envelope (used to spell
out concrete reachable states). -/
def brokerStep (b : BrokerState) (i : Fin number_of_workers) : BrokerState :=
  ((backStep b (readyMsgFor i)).map Prod.fst).getD b

/-- All-starting phase map. -/
def phase0 : Fin number_of_workers → Phase := fun _ => Phase.starting

/-- System state after the broker consumed worker 0's READY. -/
def sysR1 : Sys :=
  ⟨brokerStep broker0 ⟨0, by decide⟩,
   Function.update phase0 ⟨0, by decide⟩ Phase.waiting⟩

/-- System state after READYs of workers 0 and 1. -/
def sysR2 : Sys :=
  ⟨brokerStep sysR1.broker ⟨1, by decide⟩,
   Function.update sysR1.phase ⟨1, by decide⟩ Phase.waiting⟩

/-- System state after READYs of workers 0, 1 and 2. -/
def sysR3 : Sys :=
  ⟨brokerStep sysR2.broker ⟨2, by decide⟩,
   Function.update sysR2.phase ⟨2, by decide⟩ Phase.waiting⟩

/-- System state after all four READYs. -/
def sysR4 : Sys :=
  ⟨brokerStep sysR3.broker ⟨3, by decide⟩,
   Function.update sysR3.phase ⟨3, by decide⟩ Phase.waiting⟩

theorem reach_sysR4 : Reach sysR4 := by
  have h1 : SysStep sys0 sysR1 :=
    SysStep.backFree sys0 ⟨0, by decide⟩ readyPayload sysR1.broker readyPayload 0
      (by decide) rfl
  have h2 : SysStep sysR1 sysR2 :=
    SysStep.backFree sysR1 ⟨1, by decide⟩ readyPayload sysR2.broker readyPayload 1
      (by decide) rfl
  have h3 : SysStep sysR2 sysR3 :=
    SysStep.backFree sysR2 ⟨2, by decide⟩ readyPayload sysR3.broker readyPayload 2
      (by decide) rfl
  have h4 : SysStep sysR3 sysR4 :=
    SysStep.backFree sysR3 ⟨3, by decide⟩ readyPayload sysR4.broker readyPayload 3
      (by decide) rfl
  exact Relation.ReflTransGen.tail (Relation.ReflTransGen.tail
    (Relation.ReflTransGen.tail (Relation.ReflTransGen.tail
      Relation.ReflTransGen.refl h1) h2) h3) h4

/-- Witness for C7 at the concrete reachable state in which all four READYs
have been processed. -/
theorem scheduler_invariant_witness :
    (freeListS sysR4).Nodup ∧
    sysR4.broker.free_workers_q.len
      + (Finset.univ.filter fun i : Fin number_of_workers =>
          sysR4.phase i = Phase.busy).card = number_of_workers :=
  ⟨(scheduler_invariant sysR4 reach_sysR4 (by decide)).1,
   (scheduler_invariant sysR4 reach_sysR4 (by decide)).2.2⟩
